import Mathlib

/-!
# KubeVela: applicability resolver and application document assembler

A shallow embedding of `pkg/serverlib/trait.go`, `pkg/application/modify.go`,
`pkg/serverlib/workload.go`, `pkg/serverlib/capability.go` and
`pkg/plugins/cluster.go`.

* Go strings are Lean `String`s; `strings.Split` is only ever called with a
  one-character separator and is embedded for that case.
* Go slices are `List`s (a `nil` slice and an empty slice are both `[]`).
* A Go `map[string]T` is an association list `List (String × T)` whose keys are
  pairwise distinct; reading is `GoMap.get`, `m[k] = v` is `GoMap.set` and
  `delete(m, k)` is `GoMap.delete`. Maps are taken to be allocated (non-nil).
* A `range` loop is a left fold or a structural recursion over the ranged
  collection.
* A Go `error` is an `Option String`, the message; a pointer is an `Option`.
* Functions and libraries whose bodies are outside the sources are fields of a
  structure of collaborators that the embedded function takes as an argument;
  the assembler, the center registry and the installer record their calls with
  an effect on the document, the store or the cluster, in order, in the result.
-/

namespace KubeVela

/-! ## Strings -/

/-- Pieces of a character list between occurrences of `sep`; there is always
at least one piece, as with `strings.Split` and a non-empty separator. -/
def splitChars (sep : Char) : List Char → List (List Char)
  | [] => [[]]
  | c :: cs =>
    if c = sep then [] :: splitChars sep cs
    else
      match splitChars sep cs with
      | [] => [[c]]
      | p :: ps => (c :: p) :: ps

/-- Go `strings.Split(s, sep)` for a separator that is one character long. -/
def Split (s : String) (sep : Char) : List String :=
  (splitChars sep s.data).map String.mk

/-- The two library calls made by `Parse`: `plur.NewClient().Plural` of
`github.com/gertd/go-pluralize` and `strings.ToLower`. Both are pure functions
on strings that live outside the repository, so they are parameters of the
embedding. -/
structure StrLib where
  Plural : String → String
  ToLower : String → String

/-! ## Capabilities -/

/-- The kinds of `cuelang.org/go/cue` that a parameter can be declared with.
`NumberKind` and `FloatKind` are told apart, as in the library. -/
inductive Kind where
  | BottomKind
  | NullKind
  | BoolKind
  | IntKind
  | FloatKind
  | StringKind
  | BytesKind
  | ListKind
  | StructKind
  | NumberKind
  deriving DecidableEq, Repr

/-- The name `Kind.String()` prints for a kind. -/
def Kind.String : Kind → String
  | .BottomKind => "_|_"
  | .NullKind => "null"
  | .BoolKind => "bool"
  | .IntKind => "int"
  | .FloatKind => "float"
  | .StringKind => "string"
  | .BytesKind => "bytes"
  | .ListKind => "list"
  | .StructKind => "struct"
  | .NumberKind => "number"

/-- Modelled from the spec: the declaration of `types.Parameter` is missing from
the sources at hand. A parameter has a name, an optional alias (empty when
there is none), a declared kind and a required mark. -/
structure Parameter where
  Name : String
  Alias : String
  Required : Bool
  Type_ : Kind
  deriving DecidableEq, Repr

/-- Modelled from the spec: the chart of an install descriptor (`name, version,
url, namespace`), passed to the chart provisioner as it is. -/
structure HelmChart where
  Name : String
  Version : String
  URL : String
  Namespace : String
  deriving DecidableEq, Repr

/-- Modelled from the spec: the install descriptor `types.Installation`. -/
structure Installation where
  Helm : HelmChart
  deriving DecidableEq, Repr

/-- Modelled from the spec: the provenance `types.Source` of a capability. -/
structure Source where
  RepoName : String
  ChartName : String
  deriving DecidableEq, Repr

/-- Modelled from the spec: the resolved resource kind `types.CRDInfo`. -/
structure CRDInfo where
  APIVersion : String
  Kind : String
  deriving DecidableEq, Repr

/-- Modelled from the spec: the declaration of `types.Capability` (package
`apis/types`) is missing from the sources at hand. The fields are the ones read
or written by the resolver (`Name`, `CrdName`, `AppliesTo`) together with the
capability kind, status, center and template body named in the data model, and
the parameter list, install descriptor, source and resource-kind info that the
assembler and the installer use (the three pointers are `Option`s), and the
template URI, template path and description that the cluster sync writes. -/
structure Capability where
  Name : String
  Type_ : String
  CrdName : String
  AppliesTo : List String
  Center : String
  Status : String
  CueTemplate : String
  Parameters : List Parameter := []
  Install : Option Installation := none
  Source : Option Source := none
  CrdInfo : Option CRDInfo := none
  CueTemplateURI : String := ""
  DefinitionPath : String := ""
  Description : String := ""
  deriving DecidableEq, Repr

/-- `Parse` turns `apigroup/Version.Kind` into `plural(lower(Kind)).apigroup`;
any other shape is returned unchanged. -/
def Parse (L : StrLib) (applyTo : String) : String :=
  match Split applyTo '/' with
  | [apigroup, versionKind] =>
    match Split versionKind '.' with
    | [_, kind] => L.Plural (L.ToLower kind) ++ "." ++ apigroup
    | _ => applyTo
  | _ => applyTo

/-- `check` returns the name of the first workload whose `CrdName` or `Name`
equals the parsed entry, and whether there is one. -/
def check (L : StrLib) (applyto : String) : List Capability → String × Bool
  | [] => ("", false)
  | v :: rest =>
    if Parse L applyto = v.CrdName ∨ Parse L applyto = v.Name then (v.Name, true)
    else check L applyto rest

/-- The helper `in` of `trait.go` (`in` is a reserved word in Lean). -/
def in_ : List String → String → Bool
  | [], _ => false
  | ll :: l, v => if ll = v then true else in_ l v

/-- One iteration of the loop of `ConvertApplyTo`. -/
def convertStep (L : StrLib) (workloads : List Capability)
    (converted : List String) (v : String) : List String :=
  match check L v workloads with
  | (newName, exist) =>
    if !exist then converted
    else if !in_ converted newName then converted ++ [newName]
    else converted

/-- `ConvertApplyTo` converts an applyTo slice to workload capability names. -/
def ConvertApplyTo (L : StrLib) (applyTo : List String)
    (workloads : List Capability) : List String :=
  applyTo.foldl (convertStep L workloads) []

/-- One iteration of the loop of `convertAllAppliyToList`, for a non-nil
`workloadName` pointer whose target is `name`. -/
def convertAllStep (L : StrLib) (workloads : List Capability) (name : String)
    (traitList : List Capability) (t : Capability) : List Capability :=
  let convertedApplyTo := ConvertApplyTo L t.AppliesTo workloads
  if name ≠ "" then
    if !in_ convertedApplyTo name then traitList
    else traitList ++ [{ t with AppliesTo := [name] }]
  else traitList ++ [{ t with AppliesTo := convertedApplyTo }]

/-- `convertAllAppliyToList`. The `workloadName` pointer is an `Option`; the
result is `none` when the function dereferences a nil pointer, which happens in
the first iteration of the loop. -/
def convertAllAppliyToList (L : StrLib) (traits workloads : List Capability)
    (workloadName : Option String) : Option (List Capability) :=
  match traits, workloadName with
  | [], _ => some []
  | _ :: _, none => none
  | _ :: _, some name => some (traits.foldl (convertAllStep L workloads name) [])

/-- A stand-in for the two library calls: ASCII lower-casing and the regular
plural in `s`. It agrees with the libraries on the kinds used in examples. -/
def sampleLib : StrLib where
  Plural := fun s => s ++ "s"
  ToLower := fun s => String.mk (s.data.map Char.toLower)

/-- The workload `webservice`, backed by `deployments.apps`. -/
def webservice : Capability :=
  { Name := "webservice", Type_ := "workload", CrdName := "deployments.apps",
    AppliesTo := [], Center := "", Status := "installed", CueTemplate := "" }

/-- The workload `worker`, also backed by `deployments.apps`. -/
def worker : Capability :=
  { Name := "worker", Type_ := "workload", CrdName := "deployments.apps",
    AppliesTo := [], Center := "", Status := "installed", CueTemplate := "" }

/-- The spec's reading of the resolver's matching rule: the parsed entry equals
the workload's backing resource-kind identifier or its capability name. -/
def appliesToWorkload (L : StrLib) (e : String) (w : Capability) : Bool :=
  decide (Parse L e = w.CrdName) || decide (Parse L e = w.Name)

/-- Keeps the first occurrence of every name, in order of first appearance. -/
def firstSeen : List String → List String
  | [] => []
  | x :: xs => x :: (firstSeen xs).filter (fun y => decide (y ≠ x))

/-- The resolver as the spec words it: walk `applyTo` in order, take for each
entry the name of a matching workload, drop the entries without one, and drop
the names already emitted. -/
def resolveSpec (L : StrLib) (applyTo : List String) (workloads : List Capability) :
    List String :=
  firstSeen (applyTo.filterMap fun e =>
    (workloads.find? (appliesToWorkload L e)).map fun w => w.Name)

/-! ## Application documents -/

/-- A Go `interface{}` value as it occurs in a component document. -/
inductive Value where
  | null
  | str (s : String)
  | int (n : Int)
  | bool (b : Bool)
  | float (bits : Nat)
  | list (l : List Value)
  | map (m : List (String × Value))

/-- A Go `map[string]T`, as the list of its entries. -/
abbrev GoMap (β : Type) := List (String × β)

namespace GoMap

/-- The read `v, ok := m[k]`. -/
def get {β : Type} : GoMap β → String → Option β
  | [], _ => none
  | (k', v) :: rest, k => if k' = k then some v else get rest k

/-- The write `m[k] = v`: an existing entry is replaced, a new one is added. -/
def set {β : Type} : GoMap β → String → β → GoMap β
  | [], k, v => [(k, v)]
  | (k', v') :: rest, k, v =>
    if k' = k then (k, v) :: rest else (k', v') :: set rest k v

/-- The builtin `delete(m, k)`. -/
def delete {β : Type} (m : GoMap β) (k : String) : GoMap β :=
  m.filter fun kv => decide (kv.1 ≠ k)

/-- The loop `for k, v := range src { dst[k] = v }`. -/
def merge {β : Type} (dst src : GoMap β) : GoMap β :=
  src.foldl (fun m kv => set m kv.1 kv.2) dst

/-- The keys of a Go map are pairwise distinct. -/
def WF {β : Type} (m : GoMap β) : Prop := (m.map Prod.fst).Nodup

instance {β : Type} (m : GoMap β) : Decidable (WF m) := by
  unfold WF; infer_instance

end GoMap

/-- The type `appfile.Service`, a `map[string]interface{}`. -/
abbrev Service := GoMap Value

/-- Modelled from the spec: the declaration of `driver.Application` (package
`pkg/appfile/storage/driver`) is missing from the sources at hand. An
application document has a name and maps component names to component
documents; `modify.go` reads and writes the field `Services` only. -/
structure Application where
  Name : String
  Services : GoMap Service

/-- The message of the error every function of `modify.go` returns for a nil
`app`. -/
def errNilApp : String := "app is nil pointer"

/-- `SetWorkload` sets the workload of a component. `app` is a pointer (`none`
is nil); `Validate` is the method `app.Validate()`, whose body is outside the
sources at hand. The result is the application behind the pointer after the
call and the returned error. -/
def SetWorkload (Validate : Application → Option String) (app : Option Application)
    (componentName workloadType : String) (workloadData : GoMap Value) :
    Option Application × Option String :=
  match app with
  | none => (none, some errNilApp)
  | some a =>
    let s : Service :=
      match GoMap.get a.Services componentName with
      | some s => s
      | none => []
    let s := GoMap.set s "type" (Value.str workloadType)
    let s := GoMap.merge s workloadData
    let a := { a with Services := GoMap.set a.Services componentName s }
    (some a, Validate a)

/-- `SetTrait` sets a trait of a component. The outer `none` is the run-time
panic of the type assertion `t.(map[string]interface{})`. A nil `traitData` is
replaced by an empty map, which the embedding does not tell apart. -/
def SetTrait (Validate : Application → Option String) (app : Option Application)
    (componentName traitType : String) (traitData : GoMap Value) :
    Option (Option Application × Option String) :=
  match app with
  | none => some (none, some errNilApp)
  | some a =>
    let s : Service :=
      match GoMap.get a.Services componentName with
      | some s => s
      | none => []
    let t : Value :=
      match GoMap.get s traitType with
      | some t => t
      | none => Value.map []
    match t with
    | Value.map tm =>
      let tm := GoMap.merge tm traitData
      let s := GoMap.set s traitType (Value.map tm)
      let a := { a with Services := GoMap.set a.Services componentName s }
      some (some a, Validate a)
    | _ => none

/-- `RemoveTrait` deletes a trait key of a component in place. -/
def RemoveTrait (app : Option Application) (componentName traitType : String) :
    Option Application × Option String :=
  match app with
  | none => (none, some errNilApp)
  | some a =>
    match GoMap.get a.Services componentName with
    | none => (some a, none)
    | some s =>
      let s := GoMap.delete s traitType
      (some { a with Services := GoMap.set a.Services componentName s }, none)

/-- `RemoveComponent` deletes a component of the application. -/
def RemoveComponent (app : Option Application) (componentName : String) :
    Option Application × Option String :=
  match app with
  | none => (none, some errNilApp)
  | some a => (some { a with Services := GoMap.delete a.Services componentName }, none)

/-- The component document of `c` in `app`, if the component is present. -/
def component (app : Option Application) (c : String) : Option Service :=
  match app with
  | none => none
  | some a => GoMap.get a.Services c

/-- The value at key `k` of the component document of `c`; a missing component
has no keys. -/
def componentKey (app : Option Application) (c k : String) : Option Value :=
  match component app c with
  | none => none
  | some s => GoMap.get s k

/-- The workload `task`, backed by `jobs.batch`. -/
def task : Capability :=
  { Name := "task", Type_ := "workload", CrdName := "jobs.batch",
    AppliesTo := [], Center := "", Status := "installed", CueTemplate := "" }

/-- The trait `route`, declared for deployments. -/
def route : Capability :=
  { Name := "route", Type_ := "trait", CrdName := "routes.standard.oam.dev",
    AppliesTo := ["apps/v1.Deployment"], Center := "", Status := "installed",
    CueTemplate := "" }

/-- The trait `cron`, declared for jobs. -/
def cron : Capability :=
  { Name := "cron", Type_ := "trait", CrdName := "crons.standard.oam.dev",
    AppliesTo := ["batch/v1.Job"], Center := "", Status := "installed",
    CueTemplate := "" }

/-- An application document without components. -/
def emptyApp : Application := { Name := "demo", Services := [] }

/-- An application document with the component `web`, a `webservice` that
carries a `route` trait, and the component `job`, a `task`. -/
def demoApp : Application :=
  { Name := "demo",
    Services :=
      [("web", [("type", Value.str "webservice"), ("image", Value.str "nginx"),
                ("route", Value.map [("domain", Value.str "a.example.com")])]),
       ("job", [("type", Value.str "task"), ("count", Value.int 3)])] }

/-- A validation that accepts every document. -/
def validateOk : Application → Option String := fun _ => none

/-- A validation that rejects the documents without a name. -/
def validateNamed : Application → Option String :=
  fun a => if a.Name = "" then some "name is required" else none

/-- An application document without a name and without components. -/
def unnamedApp : Application := { Name := "", Services := [] }

/-- Every component document present in the application has a `type` key. -/
def typedApp (app : Option Application) : Prop :=
  ∀ c s, component app c = some s → (GoMap.get s "type").isSome = true

/-! ## Flags and text conversion -/

/-- Go `strings.Contains`. -/
def Contains (s substr : String) : Bool :=
  s.data.tails.any fun t => substr.data.isPrefixOf t

/-- Go `strings.HasPrefix`. -/
def HasPrefix (s pre : String) : Bool :=
  pre.data.isPrefixOf s.data

/-- Go `strings.TrimPrefix`. -/
def TrimPrefix (s pre : String) : String :=
  if HasPrefix s pre then String.mk (s.data.drop pre.data.length) else s

/-- Go `strconv.ParseBool`: the value and the error. The message quotes the
text without the escaping of `strconv.Quote`. -/
def ParseBool (str : String) : Bool × Option String :=
  if str ∈ ["1", "t", "T", "true", "TRUE", "True"] then (true, none)
  else if str ∈ ["0", "f", "F", "false", "FALSE", "False"] then (false, none)
  else (false, some ("strconv.ParseBool: parsing \"" ++ str ++ "\": invalid syntax"))

/-- The value of a string of decimal digits, `none` when the string is empty or
holds another character (the syntax error of `strconv.ParseUint` in base 10). -/
def parseDigits (cs : List Char) : Option Nat :=
  if cs = [] then none
  else cs.foldl (fun acc c =>
    match acc with
    | none => none
    | some n => if c.isDigit then some (n * 10 + (c.toNat - '0'.toNat)) else none) (some 0)

/-- Go `strconv.ParseInt(s, 10, 64)`: an optional sign and decimal digits; a
value outside the 64-bit range gives the nearest bound and a range error. -/
def ParseInt (s : String) : Int × Option String :=
  let syntaxErr := some ("strconv.ParseInt: parsing \"" ++ s ++ "\": invalid syntax")
  let rangeErr := some ("strconv.ParseInt: parsing \"" ++ s ++ "\": value out of range")
  match s.data with
  | [] => (0, syntaxErr)
  | c :: cs =>
    let neg := decide (c = '-')
    let digits := if c = '+' ∨ c = '-' then cs else c :: cs
    match parseDigits digits with
    | none => (0, syntaxErr)
    | some un =>
      if !neg && decide (un ≥ 2 ^ 63) then ((2 : Int) ^ 63 - 1, rangeErr)
      else if neg && decide (un > 2 ^ 63) then (-(2 : Int) ^ 63, rangeErr)
      else (if neg then -(un : Int) else (un : Int), none)

/-- The library calls of the assembler that live outside the repository: the
methods of `*pflag.FlagSet` it uses, over a type `F` of flag sets, and
`strconv.ParseFloat(s, 64)`. `Lookup` gives the text `flag.Value.String()` of
the flag, `none` for a nil flag; a getter gives the value and the error; `Set`
gives the flag set after the call and the error; a `float64` is its bit
pattern. -/
structure CliLib (F : Type) where
  Lookup : F → String → Option String
  GetInt64 : F → String → Int × Option String
  GetString : F → String → String × Option String
  GetBool : F → String → Bool × Option String
  GetFloat64 : F → String → Nat × Option String
  Set : F → String → String → F × Option String
  ParseFloat : String → Nat × Option String

/-- The flag name of a parameter: `name := v.Name; if v.Alias != "" { name =
v.Alias }`. -/
def flagName (v : Parameter) : String :=
  if v.Alias ≠ "" then v.Alias else v.Name

/-- The `switch v.Type` of the direct retrieval, in `BaseComplete` and in
`AddOrUpdateTrait`: the value assigned to the data entry and the error, `none`
for the `default` branch. -/
def getTyped {F : Type} (lib : CliLib F) (flagSet : F) (name : String) :
    Kind → Option (Value × Option String)
  | .IntKind => some (Value.int (lib.GetInt64 flagSet name).1, (lib.GetInt64 flagSet name).2)
  | .StringKind =>
    some (Value.str (lib.GetString flagSet name).1, (lib.GetString flagSet name).2)
  | .BoolKind => some (Value.bool (lib.GetBool flagSet name).1, (lib.GetBool flagSet name).2)
  | .NumberKind =>
    some (Value.float (lib.GetFloat64 flagSet name).1, (lib.GetFloat64 flagSet name).2)
  | .FloatKind =>
    some (Value.float (lib.GetFloat64 flagSet name).1, (lib.GetFloat64 flagSet name).2)
  | _ => none

/-- The `switch v.Type` of the string fallback in `BaseComplete`: the value
assigned to the data entry and the error, `none` for the `default` branch. -/
def parseTyped {F : Type} (lib : CliLib F) (data : String) :
    Kind → Option (Value × Option String)
  | .IntKind => some (Value.int (ParseInt data).1, (ParseInt data).2)
  | .BoolKind => some (Value.bool (ParseBool data).1, (ParseBool data).2)
  | .NumberKind => some (Value.float (lib.ParseFloat data).1, (lib.ParseFloat data).2)
  | .FloatKind => some (Value.float (lib.ParseFloat data).1, (lib.ParseFloat data).2)
  | _ => none

/-- One iteration of the parameter loop of `BaseComplete`: the workload data
after the iteration, or the error the function returns. An assignment
`workloadData[v.Name], err = ...` writes the entry also when `err` is set. -/
def completeParam {F : Type} (lib : CliLib F) (flagSet : F) (workloadData : GoMap Value)
    (v : Parameter) : Except String (GoMap Value) :=
  let name := flagName v
  let flag := lib.Lookup flagSet name
  if name = "name" then .ok workloadData
  else if flag = none ∨ flag = some "" then
    if v.Required then .error ("required flag(s) \"" ++ name ++ "\" not set")
    else .ok workloadData
  else
    match getTyped lib flagSet name v.Type_ with
    | none => .ok workloadData
    | some (val, none) => .ok (GoMap.set workloadData v.Name val)
    | some (val, some e) =>
      let workloadData := GoMap.set workloadData v.Name val
      if Contains e "of flag of type string" then
        let data := (lib.GetString flagSet name).1
        match parseTyped lib data v.Type_ with
        | none =>
          .error ("should not get string from type(" ++ v.Type_.String ++
            ") for parameter \"" ++ name ++ "\"")
        | some (val, none) => .ok (GoMap.set workloadData v.Name val)
        | some (_, some e) => .error ("get flag(s) \"" ++ v.Name ++ "\" err " ++ e)
      else .error ("get flag(s) \"" ++ v.Name ++ "\" err " ++ e)

/-- The parameter loop of `BaseComplete`. -/
def completeParams {F : Type} (lib : CliLib F) (flagSet : F) :
    GoMap Value → List Parameter → Except String (GoMap Value)
  | workloadData, [] => .ok workloadData
  | workloadData, v :: rest =>
    match completeParam lib flagSet workloadData v with
    | .error e => .error e
    | .ok workloadData => completeParams lib flagSet workloadData rest

/-- One iteration of the parameter loop of `AddOrUpdateTrait`. -/
def traitParam {F : Type} (lib : CliLib F) (flagSet : F) (traitData : GoMap Value)
    (v : Parameter) : Except String (GoMap Value) :=
  let name := flagName v
  match getTyped lib flagSet name v.Type_ with
  | none => .ok traitData
  | some (val, none) => .ok (GoMap.set traitData v.Name val)
  | some (_, some e) => .error ("get flag(s) \"" ++ name ++ "\" err " ++ e)

/-- The parameter loop of `AddOrUpdateTrait`. -/
def traitParams {F : Type} (lib : CliLib F) (flagSet : F) :
    GoMap Value → List Parameter → Except String (GoMap Value)
  | traitData, [] => .ok traitData
  | traitData, v :: rest =>
    match traitParam lib flagSet traitData v with
    | .error e => .error e
    | .ok traitData => traitParams lib flagSet traitData rest

/-! ## The assembler calls -/

/-- The fields of `types.EnvMeta` that the sources at hand read or write (its
declaration is in `apis/types`). -/
structure EnvMeta where
  Name : String
  Namespace : String
  Email : String
  Domain : String
  Issuer : String
  Current : String
  deriving DecidableEq, Repr

/-- The functions of the repository that `BaseComplete` and `AddOrUpdateTrait`
call and whose bodies are outside the sources at hand: `application.Load`,
`application.IsNotFound` (on the message of the error),
`application.NewEmptyApplication`, `application.GetWorkload`,
`application.GetTraitsByType`, `plugins.LoadCapabilityByName`, the method
`app.Validate()` and `application.Save`. A pair is the result and the error. -/
structure AppDeps where
  Load : String → String → Option Application × Option String
  IsNotFound : String → String → Bool
  NewEmptyApplication : Option Application × Option String
  GetWorkload : Option Application → String → String × GoMap Value
  GetTraitsByType : Option Application → String → String → GoMap Value × Option String
  LoadCapabilityByName : String → Capability × Option String
  Validate : Application → Option String
  Save : Option Application → String → Option String

/-- A call that changes the application document or the store. -/
inductive Call where
  | setWorkload (componentName workloadType : String) (workloadData : GoMap Value)
  | setTrait (componentName traitType : String) (traitData : GoMap Value)
  | save (app : Option Application) (envName : String)

/-- What a call of the assembler returns, and the calls of `SetWorkload`,
`SetTrait` and `Save` it made, in order. -/
structure Outcome where
  app : Option Application
  err : Option String
  calls : List Call

/-- `LoadIfExist` loads the application, or makes an empty one when it is not
found. The outer `none` is the nil dereference of `app.Name = appName` when
`NewEmptyApplication` returns neither an application nor an error. -/
def LoadIfExist (D : AppDeps) (envName workloadName appGroup : String) :
    Option (Option Application × Option String) :=
  let appName := if appGroup ≠ "" then appGroup else workloadName
  match D.Load envName appName with
  | (app, err) =>
    let fatal : Bool :=
      match err with
      | some e => !D.IsNotFound appName e
      | none => false
    if fatal then some (none, err)
    else
      match app with
      | some a => some (some { a with Name := appName }, none)
      | none =>
        match D.NewEmptyApplication with
        | (_, some e) => some (none, some e)
        | (some a, none) => some (some { a with Name := appName }, none)
        | (none, none) => none

/-- `BaseComplete` constructs an application from the flags. The outer `none`
is a run-time panic (of `LoadIfExist`). -/
def BaseComplete {F : Type} (D : AppDeps) (lib : CliLib F)
    (envName workloadName appName : String) (flagSet : F) (workloadType : String) :
    Option Outcome :=
  match LoadIfExist D envName workloadName appName with
  | none => none
  | some (_, some err) => some ⟨none, some err, []⟩
  | some (app, none) =>
    match D.GetWorkload app workloadName with
    | (tp, workloadData) =>
      if tp = "" ∧ workloadType = "" then
        some ⟨none,
          some ("must specify workload type for application " ++ workloadName), []⟩
      else
        let tp := if tp = "" then workloadType else tp
        match D.LoadCapabilityByName tp with
        | (_, some err) => some ⟨none, some err, []⟩
        | (template, none) =>
          match completeParams lib flagSet workloadData template.Parameters with
          | .error e => some ⟨none, some e, []⟩
          | .ok workloadData =>
            match SetWorkload D.Validate app workloadName tp workloadData with
            | (app, some err) =>
              some ⟨app, some err, [Call.setWorkload workloadName tp workloadData]⟩
            | (app, none) =>
              some ⟨app, D.Save app envName,
                [Call.setWorkload workloadName tp workloadData, Call.save app envName]⟩

/-- The `route` case of `ValidateAndMutateForCore`, up to the domain flag: the
flags and the environment after it, and the error it returns with. -/
def routeDomain {F : Type} (lib : CliLib F) (workloadName : String) (flags : F)
    (env : EnvMeta) : F × EnvMeta × Option String :=
  let domain := (lib.GetString flags "domain").1
  if domain = "" then
    if env.Domain = "" then
      (flags, env, some "--domain is required if not contain in environment")
    else
      let env : EnvMeta :=
        if HasPrefix env.Domain "https://" then
          { env with Domain := TrimPrefix env.Domain "https://" }
        else env
      let env : EnvMeta :=
        if HasPrefix env.Domain "http://" then
          { env with Domain := TrimPrefix env.Domain "http://" }
        else env
      match lib.Set flags "domain" (workloadName ++ "." ++ env.Domain) with
      | (flags, some e) =>
        (flags, env, some ("set flag for vela-core trait('route') err " ++ e ++
          ", please make sure your template is right"))
      | (flags, none) => (flags, env, none)
  else (flags, env, none)

/-- The `route` case of `ValidateAndMutateForCore`, from the issuer flag on. -/
def routeIssuer {F : Type} (lib : CliLib F) (flags : F) (env : EnvMeta) :
    F × EnvMeta × Option String :=
  let issuer := (lib.GetString flags "issuer").1
  if issuer = "" ∧ env.Issuer ≠ "" then
    match lib.Set flags "issuer" env.Issuer with
    | (flags, some e) =>
      (flags, env, some ("set flag for vela-core trait('route') err " ++ e ++
        ", please make sure your template is right"))
    | (flags, none) => (flags, env, none)
  else (flags, env, none)

/-- `ValidateAndMutateForCore`: the flags and the environment behind the two
pointers after the call, and the returned error. -/
def ValidateAndMutateForCore {F : Type} (lib : CliLib F) (traitType workloadName : String)
    (flags : F) (env : EnvMeta) : F × EnvMeta × Option String :=
  if traitType = "route" then
    match routeDomain lib workloadName flags env with
    | (flags, env, some e) => (flags, env, some e)
    | (flags, env, none) => routeIssuer lib flags env
  else (flags, env, none)

/-- `AddOrUpdateTrait` attaches a trait to a component. The result holds what
the call returns with the calls it made, and the flags and the environment
behind the two pointers after the call; the outer `none` is the run-time panic
of `SetTrait`. -/
def AddOrUpdateTrait {F : Type} (D : AppDeps) (lib : CliLib F) (env : EnvMeta)
    (appName componentName : String) (flagSet : F) (template : Capability) :
    Option (Outcome × F × EnvMeta) :=
  match ValidateAndMutateForCore lib template.Name componentName flagSet env with
  | (flagSet, env, some err) => some (⟨none, some err, []⟩, flagSet, env)
  | (flagSet, env, none) =>
    let appName := if appName = "" then componentName else appName
    match D.Load env.Name appName with
    | (app, some err) => some (⟨app, some err, []⟩, flagSet, env)
    | (app, none) =>
      let traitAlias := template.Name
      match D.GetTraitsByType app componentName traitAlias with
      | (_, some err) => some (⟨app, some err, []⟩, flagSet, env)
      | (traitData, none) =>
        match traitParams lib flagSet traitData template.Parameters with
        | .error e => some (⟨none, some e, []⟩, flagSet, env)
        | .ok traitData =>
          match SetTrait D.Validate app componentName traitAlias traitData with
          | none => none
          | some (app, some err) =>
            some (⟨app, some err, [Call.setTrait componentName traitAlias traitData]⟩,
              flagSet, env)
          | some (app, none) =>
            some (⟨app, D.Save app env.Name,
              [Call.setTrait componentName traitAlias traitData, Call.save app env.Name]⟩,
              flagSet, env)

/-- A stand-in for the flag library: a flag set in which every flag is a string
flag, as a map from flag names to texts. A getter of another type than string
reports the mismatch, as `pflag` does; the stand-in for `strconv.ParseFloat`
knows the text `0` only. -/
def stringFlags : CliLib (GoMap String) where
  Lookup := fun fs n => GoMap.get fs n
  GetInt64 := fun fs n =>
    match GoMap.get fs n with
    | some _ => (0, some "trying to get int64 value of flag of type string")
    | none => (0, some ("flag accessed but not defined: " ++ n))
  GetString := fun fs n =>
    match GoMap.get fs n with
    | some t => (t, none)
    | none => ("", some ("flag accessed but not defined: " ++ n))
  GetBool := fun fs n =>
    match GoMap.get fs n with
    | some _ => (false, some "trying to get bool value of flag of type string")
    | none => (false, some ("flag accessed but not defined: " ++ n))
  GetFloat64 := fun fs n =>
    match GoMap.get fs n with
    | some _ => (0, some "trying to get float64 value of flag of type string")
    | none => (0, some ("flag accessed but not defined: " ++ n))
  Set := fun fs n t =>
    match GoMap.get fs n with
    | some _ => (GoMap.set fs n t, none)
    | none => (fs, some ("no such flag -" ++ n))
  ParseFloat := fun t =>
    if t = "0" then (0, none)
    else (0, some ("strconv.ParseFloat: parsing \"" ++ t ++ "\": invalid syntax"))

/-- A stand-in for the application store over a list of installed
capabilities: only the application `demo` is stored, a save always succeeds,
and the validation rejects a document without a name. -/
def sampleDeps (installed : List Capability) : AppDeps where
  Load := fun _ appName =>
    if appName = "demo" then (some demoApp, none)
    else (none, some ("application " ++ appName ++ " not found"))
  IsNotFound := fun appName e => decide (e = "application " ++ appName ++ " not found")
  NewEmptyApplication := (some emptyApp, none)
  GetWorkload := fun app c =>
    match component app c with
    | none => ("", [])
    | some s =>
      match GoMap.get s "type" with
      | some (Value.str tp) => (tp, GoMap.delete s "type")
      | _ => ("", GoMap.delete s "type")
  GetTraitsByType := fun app c t =>
    match component app c with
    | none => ([], some ("service name (" ++ c ++ ") doesn't exist"))
    | some s =>
      match GoMap.get s t with
      | some (Value.map m) => (m, none)
      | _ => ([], none)
  LoadCapabilityByName := fun tp =>
    match installed.find? fun cap => decide (cap.Name = tp) with
    | some cap => (cap, none)
    | none => (webservice, some ("capability " ++ tp ++ " not found"))
  Validate := validateNamed
  Save := fun _ _ => none

/-- The environment `dev`. -/
def devEnv : EnvMeta :=
  { Name := "dev", Namespace := "dev", Email := "", Domain := "", Issuer := "",
    Current := "" }

/-- A workload whose template declares a required parameter called `name`. -/
def namedWorkload : Capability :=
  { webservice with
    Parameters := [{ Name := "name", Alias := "", Required := true, Type_ := Kind.StringKind }] }

/-- A workload whose template declares an optional `port`, read from the flag
`p`, before a required `replicas`. -/
def scaledWorkload : Capability :=
  { webservice with
    Parameters :=
      [{ Name := "port", Alias := "p", Required := false, Type_ := Kind.IntKind },
       { Name := "replicas", Alias := "", Required := true, Type_ := Kind.IntKind }] }

/-- A workload whose template declares a flag `debug` of kind bool, an `image`
and a `volumes` list. -/
def debugWorkload : Capability :=
  { webservice with
    Parameters :=
      [{ Name := "debug", Alias := "", Required := false, Type_ := Kind.BoolKind },
       { Name := "volumes", Alias := "", Required := false, Type_ := Kind.ListKind },
       { Name := "image", Alias := "i", Required := true, Type_ := Kind.StringKind }] }

/-- A trait `scaler` whose template declares a `replica` count. -/
def scaler : Capability :=
  { Name := "scaler", Type_ := "trait", CrdName := "manualscalertraits.core.oam.dev",
    AppliesTo := ["webservice"], Center := "", Status := "installed", CueTemplate := "",
    Parameters :=
      [{ Name := "replica", Alias := "", Required := false, Type_ := Kind.IntKind }] }

/-- The store `D` in which every capability template is loaded without the
parameter `v`. -/
def withoutParam (D : AppDeps) (v : Parameter) : AppDeps :=
  { D with
    LoadCapabilityByName := fun tp =>
      match D.LoadCapabilityByName tp with
      | (template, err) =>
        ({ template with
            Parameters := template.Parameters.filter fun p => decide (p ≠ v) }, err) }

/-! ## Capability centers and the installer -/

/-- Modelled from the spec: the center config `plugins.CapCenterConfig`,
`{name, address, token}`; its declaration is missing from the sources at
hand. -/
structure CapCenterConfig where
  Name : String
  Address : String
  Token : String
  deriving DecidableEq, Repr

/-- The functions `AddCapabilityCenter` calls whose bodies are outside the
sources at hand: `plugins.LoadRepos`, `plugins.StoreRepos`,
`plugins.NewCenterClient` (its error) and the method `SyncCapabilityFromCenter`
of the client made from a name, an address and a token. -/
structure CenterDeps where
  LoadRepos : List CapCenterConfig × Option String
  StoreRepos : List CapCenterConfig → Option String
  NewCenterClient : String → String → String → Option String
  ClientSync : String → String → String → Option String

/-- A call that changes the center registry or the center cache. -/
inductive CenterCall where
  | storeRepos (repos : List CapCenterConfig)
  | sync (capName capURL capToken : String)
  deriving DecidableEq, Repr

/-- The loop of `AddCapabilityCenter`: the first entry with the name of
`config` is replaced in place, and the loop stops there. The result is the
slice after the loop and the flag `updated`. -/
def replaceCenter (config : CapCenterConfig) :
    List CapCenterConfig → List CapCenterConfig × Bool
  | [] => ([], false)
  | r :: rest =>
    if r.Name = config.Name then (config :: rest, true)
    else
      match replaceCenter config rest with
      | (rest, updated) => (r :: rest, updated)

/-- `SyncCapabilityFromCenter` syncs all capabilities of a center. -/
def SyncCapabilityFromCenter (D : CenterDeps) (capName capURL capToken : String) :
    Option String × List CenterCall :=
  match D.NewCenterClient capName capURL capToken with
  | some err => (some err, [])
  | none => (D.ClientSync capName capURL capToken, [CenterCall.sync capName capURL capToken])

/-- `AddCapabilityCenter` adds a center: the returned error and the calls made,
in order. -/
def AddCapabilityCenter (D : CenterDeps) (capName capURL capToken : String) :
    Option String × List CenterCall :=
  match D.LoadRepos with
  | (_, some err) => (some err, [])
  | (repos, none) =>
    let config : CapCenterConfig := { Name := capName, Address := capURL, Token := capToken }
    match replaceCenter config repos with
    | (repos, updated) =>
      let repos := if !updated then repos ++ [config] else repos
      match D.StoreRepos repos with
      | some err => (some err, [CenterCall.storeRepos repos])
      | none =>
        match SyncCapabilityFromCenter D capName capURL capToken with
        | (err, calls) => (err, CenterCall.storeRepos repos :: calls)

/-- Modelled from the spec: the capability kinds `types.TypeWorkload`,
`types.TypeTrait` and `types.TypeScope`, constants of `apis/types`. -/
def TypeWorkload : String := "workload"

/-- Modelled from the spec: see `TypeWorkload`. -/
def TypeTrait : String := "trait"

/-- Modelled from the spec: see `TypeWorkload`. -/
def TypeScope : String := "scope"

/-- The fields of a `v1alpha2.WorkloadDefinition` or `TraitDefinition` that the
installer reads or writes: the name, the namespace and `Spec.Reference`. -/
structure Definition where
  Name : String
  Namespace : String
  Reference : String
  deriving DecidableEq, Repr

/-- A `schema.GroupVersionKind`. -/
structure GVK where
  Group : String
  Version : String
  Kind : String
  deriving DecidableEq, Repr

/-- The text `gvk.GroupVersion().String()`. -/
def GVK.GroupVersionString (g : GVK) : String :=
  if g.Group = "" then g.Version else g.Group ++ "/" ++ g.Version

/-- What the installer calls outside the sources at hand: the directories of
package `system`, `filepath.Join` and `filepath.Clean`, the constant
`types.DefaultKubeVelaNS`, `plugins.LoadCapabilityFromSyncedCenter`,
`ioutil.ReadFile`, `yaml.Unmarshal` into a definition of a kind,
`helm.InstallHelmChart`, `util.GetGVKFromDefinition`, the cluster's `Create`
and `Delete`, `apierrors.IsAlreadyExists` (on the message of the error),
`helm.Uninstall` and `os.Remove`. A pair is the result and the error; the
object of `Delete` is its kind, name and namespace, `none` for a nil object.
`plugins.SinkTemp2Local` is a recorded call: the count it returns selects a
message only. -/
structure ClusterDeps where
  DefaultKubeVelaNS : String
  GetCapCenterDir : String
  GetCapabilityDir : String
  Join : List String → String
  Clean : String → String
  LoadCapabilityFromSyncedCenter : String → List Capability × Option String
  ReadFile : String → String × Option String
  Unmarshal : String → String → Definition × Option String
  InstallHelmChart : HelmChart → Option String
  GetGVKFromDefinition : String → GVK × Option String
  Create : String → Definition → Option String
  IsAlreadyExists : String → Bool
  Delete : Option (String × String × String) → Option String
  HelmUninstall : String → String → String → Option String
  Remove : String → Option String

/-- A call of the installer that changes the cluster, a chart or the local
store. -/
inductive ClusterCall where
  | installHelmChart (chart : HelmChart)
  | create (kind : String) (d : Definition)
  | sinkTemp2Local (caps : List Capability) (dir : String)
  | delete (obj : Option (String × String × String))
  | helmUninstall (name ns capName : String)
  | remove (path : String)
  deriving DecidableEq, Repr

/-- The loop of `GetCapabilityFromCenter`: the first template of that name. -/
def findTemplate (addonName : String) : List Capability → Option Capability
  | [] => none
  | t :: rest => if t.Name = addonName then some t else findTemplate addonName rest

/-- The zero value `types.Capability{}`. -/
def emptyCapability : Capability :=
  { Name := "", Type_ := "", CrdName := "", AppliesTo := [], Center := "", Status := "",
    CueTemplate := "" }

/-- `GetCapabilityFromCenter` returns the synced capability of a name. -/
def GetCapabilityFromCenter (D : ClusterDeps) (repoName addonName : String) :
    Capability × Option String :=
  let dir := D.GetCapCenterDir
  let repoDir := D.Join [dir, repoName]
  match D.LoadCapabilityFromSyncedCenter repoDir with
  | (_, some err) => (emptyCapability, some err)
  | (templates, none) =>
    match findTemplate addonName templates with
    | some t => (t, none)
    | none =>
      (emptyCapability,
        some (repoName ++ "/" ++ addonName ++ " not exist, try vela cap:center:sync " ++
          repoName ++ " to sync from remote"))

/-- The body of `case types.TypeWorkload` and of `case types.TypeTrait` in
`InstallCapability`, which differ in the kind of the definition only. The
result is `.error` with the returned error and the calls made when the function
returns from inside the case, and `.ok` with the capability and the calls made
when it goes on to the commit. -/
def installDefinition (D : ClusterDeps) (repoDir kind : String) (tp : Capability) :
    Except (Option String × List ClusterCall) (Capability × List ClusterCall) :=
  match D.ReadFile (D.Clean (D.Join [repoDir, tp.CrdName ++ ".yaml"])) with
  | (_, some _) => .error (none, [])
  | (data, none) =>
    match D.Unmarshal kind data with
    | (_, some err) => .error (some err, [])
    | (wd, none) =>
      let wd : Definition := { wd with Namespace := D.DefaultKubeVelaNS }
      let helm : Except (Option String × List ClusterCall) (Capability × List ClusterCall) :=
        match tp.Install with
        | none => .ok (tp, [])
        | some install =>
          let source : Option Source :=
            tp.Source.map fun src => { src with ChartName := install.Helm.Name }
          let tp : Capability := { tp with Source := source }
          match D.InstallHelmChart install.Helm with
          | some err => .error (some err, [ClusterCall.installHelmChart install.Helm])
          | none => .ok (tp, [ClusterCall.installHelmChart install.Helm])
      match helm with
      | .error r => .error r
      | .ok (tp, calls) =>
        match D.GetGVKFromDefinition wd.Reference with
        | (_, some err) => .error (some err, calls)
        | (gvk, none) =>
          let info : CRDInfo := { APIVersion := gvk.GroupVersionString, Kind := gvk.Kind }
          let tp : Capability := { tp with CrdInfo := some info }
          match D.Create kind wd with
          | some err =>
            if !D.IsAlreadyExists err then .error (some err, calls ++ [ClusterCall.create kind wd])
            else .ok (tp, calls ++ [ClusterCall.create kind wd])
          | none => .ok (tp, calls ++ [ClusterCall.create kind wd])

/-- `InstallCapability` adds a capability to the cluster and installs its
controller: the returned error and the calls made, in order. The messages
written to `ioStreams` are not part of the embedding. -/
def InstallCapability (D : ClusterDeps) (centerName capabilityName : String) :
    Option String × List ClusterCall :=
  let dir := D.GetCapCenterDir
  let repoDir := D.Join [dir, centerName]
  match GetCapabilityFromCenter D centerName capabilityName with
  | (_, some err) => (some err, [])
  | (tp, none) =>
    let tp : Capability := { tp with Source := some { RepoName := centerName, ChartName := "" } }
    let defDir := D.GetCapabilityDir
    let installed : Except (Option String × List ClusterCall) (Capability × List ClusterCall) :=
      if tp.Type_ = TypeWorkload then installDefinition D repoDir TypeWorkload tp
      else if tp.Type_ = TypeTrait then installDefinition D repoDir TypeTrait tp
      else .ok (tp, [])
    match installed with
    | .error r => r
    | .ok (tp, calls) => (none, calls ++ [ClusterCall.sinkTemp2Local [tp] defDir])

/-- The first `switch cap.Type` of `uninstallCap`: the object to delete (its
kind, name and namespace; `none` is the nil object left for another kind), or
the error returned for a scope. -/
def uninstallObject (D : ClusterDeps) (cap : Capability) :
    Except String (Option (String × String × String)) :=
  if cap.Type_ = TypeTrait then .ok (some (TypeTrait, cap.Name, D.DefaultKubeVelaNS))
  else if cap.Type_ = TypeWorkload then
    .ok (some (TypeWorkload, cap.Name, D.DefaultKubeVelaNS))
  else if cap.Type_ = TypeScope then
    .error "uninstall scope capability was not supported yet"
  else .ok none

/-- `uninstallCap` removes the definition, the chart and the local file of an
installed capability: the returned error and the calls made, in order. -/
def uninstallCap (D : ClusterDeps) (cap : Capability) : Option String × List ClusterCall :=
  match uninstallObject D cap with
  | .error err => (some err, [])
  | .ok obj =>
    match D.Delete obj with
    | some err => (some err, [ClusterCall.delete obj])
    | none =>
      let chart : Option String × List ClusterCall :=
        match cap.Install with
        | none => (none, [])
        | some install =>
          if install.Helm.Name ≠ "" then
            let ns := if install.Helm.Namespace = "" then D.DefaultKubeVelaNS
              else install.Helm.Namespace
            (D.HelmUninstall install.Helm.Name ns cap.Name,
              [ClusterCall.helmUninstall install.Helm.Name ns cap.Name])
          else (none, [])
      match chart with
      | (some err, calls) => (some err, ClusterCall.delete obj :: calls)
      | (none, calls) =>
        let capdir := D.GetCapabilityDir
        if cap.Type_ = TypeTrait then
          (D.Remove (D.Join [capdir, "traits", cap.Name]),
            ClusterCall.delete obj :: calls ++
              [ClusterCall.remove (D.Join [capdir, "traits", cap.Name])])
        else if cap.Type_ = TypeWorkload then
          (D.Remove (D.Join [capdir, "workloads", cap.Name]),
            ClusterCall.delete obj :: calls ++
              [ClusterCall.remove (D.Join [capdir, "workloads", cap.Name])])
        else (none, ClusterCall.delete obj :: calls)

/-- A stand-in for the cluster and the local files: the center `core` holds the
synced capabilities `synced`, every file can be read, every chart installs,
the discovery knows the reference `deployments.apps`, and the cluster answers
`Create` with `createErr` and `Delete` with `deleteErr`. -/
def sampleCluster (synced : List Capability) (createErr deleteErr : Option String) :
    ClusterDeps where
  DefaultKubeVelaNS := "vela-system"
  GetCapCenterDir := "/home/.vela/centers"
  GetCapabilityDir := "/home/.vela/capabilities"
  Join := fun parts => String.intercalate "/" parts
  Clean := fun path => path
  LoadCapabilityFromSyncedCenter := fun repoDir =>
    if repoDir = "/home/.vela/centers/core" then (synced, none)
    else ([], some ("open " ++ repoDir ++ ": no such file or directory"))
  ReadFile := fun path => ("definition of " ++ path, none)
  Unmarshal := fun _ _ => ({ Name := "webservice", Namespace := "", Reference := "deployments.apps" }, none)
  InstallHelmChart := fun _ => none
  GetGVKFromDefinition := fun ref =>
    if ref = "deployments.apps" then ({ Group := "apps", Version := "v1", Kind := "Deployment" }, none)
    else ({ Group := "", Version := "", Kind := "" }, some ("no matches for " ++ ref))
  Create := fun _ _ => createErr
  IsAlreadyExists := fun e => Contains e "already exists"
  Delete := fun _ => deleteErr
  HelmUninstall := fun _ _ _ => none
  Remove := fun _ => none

/-- A scope capability synced from a center. -/
def healthscope : Capability :=
  { Name := "healthscope", Type_ := TypeScope, CrdName := "healthscopes.core.oam.dev",
    AppliesTo := [], Center := "", Status := "", CueTemplate := "" }

/-- The trait `route` with a chart recorded. -/
def routeWithChart : Capability :=
  { route with
    Install := some { Helm := { Name := "router", Version := "0.1", URL := "", Namespace := "" } } }

/-- A stand-in for the center registry file holding `repos`; every store and
every sync succeeds. -/
def sampleCenters (repos : List CapCenterConfig) : CenterDeps where
  LoadRepos := (repos, none)
  StoreRepos := fun _ => none
  NewCenterClient := fun _ _ _ => none
  ClientSync := fun _ _ _ => none

/-! ## Capabilities read from the cluster -/

/-- The pieces of a character list between the occurrences of a non-empty
separator, found from left to right; `fuel` bounds the number of steps and
`cur` holds the current piece, reversed. -/
def splitSepChars (sep : List Char) : Nat → List Char → List Char → List (List Char)
  | 0, rest, cur => [cur.reverse ++ rest]
  | _ + 1, [], cur => [cur.reverse]
  | fuel + 1, c :: cs, cur =>
    if sep.isPrefixOf (c :: cs) then
      cur.reverse :: splitSepChars sep fuel ((c :: cs).drop sep.length) []
    else splitSepChars sep fuel cs (c :: cur)

/-- Go `strings.Split(s, sep)` for a separator of one character or more. -/
def SplitSep (s sep : String) : List String :=
  (splitSepChars sep.data s.data.length s.data []).map String.mk

/-- The fields of an item of a `WorkloadDefinitionList` or a
`TraitDefinitionList` that the sync reads: the name, `Spec.Reference` (by its
name), the annotations, `Spec.Extension` (a pointer to raw JSON) and, for a
trait, `Spec.AppliesToWorkloads`. -/
structure ClusterDefinition where
  Name : String
  Reference : String
  Annotations : GoMap String
  Extension : Option String
  AppliesToWorkloads : List String
  deriving DecidableEq, Repr

/-- What the cluster sync calls outside the sources at hand: the constant
`types.AnnDescription`, `types.ConvertTemplateJSON2Object`, `common.HTTPGet`,
`filepath.Join`, `ioutil.WriteFile` (path and content), `cue.GetParameters` (of
the file at a path, given the content that was written to it),
`helm.InstallHelmChart`, `util.GetGVKFromDefinition`, `client.New` and
`discoverymapper.New` (their errors) and the two `List` calls of the client, by
namespace and selector. A pair is the result and the error. The result of
`system.CreateIfNotExist` is dropped by the code and the call is not
embedded. -/
structure SyncDeps where
  AnnDescription : String
  ConvertTemplateJSON2Object : Option String → Capability × Option String
  HTTPGet : String → String × Option String
  Join : List String → String
  WriteFile : String → String → Option String
  GetParameters : String → String → List Parameter × Option String
  InstallHelmChart : HelmChart → Option String
  GetGVKFromDefinition : String → GVK × Option String
  NewClient : Option String
  NewDiscoveryMapper : Option String
  ListWorkloadDefinitions : String → String → List ClusterDefinition × Option String
  ListTraitDefinitions : String → String → List ClusterDefinition × Option String

/-- The constant `DescriptionUndefined`. -/
def DescriptionUndefined : String := "description not defined"

/-- `GetDescription` gets the description from the annotations; a nil map is an
empty one. -/
def GetDescription (D : SyncDeps) ( annotation : GoMap String) : String :=
  match GoMap.get annotation D.AnnDescription with
  | none => DescriptionUndefined
  | some desc => desc

/-- `HandleTemplate` turns the template of a definition into a capability. -/
def HandleTemplate (D : SyncDeps) (ext : Option String) (name syncDir : String) :
    Capability × Option String :=
  match D.ConvertTemplateJSON2Object ext with
  | (_, some err) => (emptyCapability, some err)
  | (tmp, none) =>
    let tmp : Capability := { tmp with Name := name }
    let fetched : Except String (Capability × String) :=
      if tmp.CueTemplateURI ≠ "" then
        match D.HTTPGet tmp.CueTemplateURI with
        | (_, some err) => .error err
        | (b, none) => .ok ({ tmp with CueTemplate := b }, b)
      else if tmp.CueTemplate = "" then .error "template not exist in definition"
      else .ok (tmp, tmp.CueTemplate)
    match fetched with
    | .error err => (emptyCapability, some err)
    | .ok (tmp, cueTemplate) =>
      let filePath := D.Join [syncDir, name ++ ".cue"]
      match D.WriteFile filePath cueTemplate with
      | some err => (emptyCapability, some err)
      | none =>
        let tmp : Capability := { tmp with DefinitionPath := filePath }
        match D.GetParameters filePath cueTemplate with
        | (_, some err) => (emptyCapability, some err)
        | (params, none) => ({ tmp with Parameters := params }, none)

/-- `HandleDefinition` turns a definition into a capability. -/
def HandleDefinition (D : SyncDeps) (name syncDir crdName : String)
    ( annotation : GoMap String) (extension : Option String) (tp : String)
    (applyTo : List String) : Capability × Option String :=
  match HandleTemplate D extension name syncDir with
  | (_, some err) => (emptyCapability, some err)
  | (tmp, none) =>
    let tmp : Capability := { tmp with Type_ := tp }
    let tmp : Capability := if tp = TypeTrait then { tmp with AppliesTo := applyTo } else tmp
    let tmp : Capability := { tmp with CrdName := crdName }
    ({ tmp with Description := GetDescription D annotation }, none)

/-- `validateCapabilities`. The variable `err` of the function is carried as
it is in the code: it is assigned by `helm.InstallHelmChart` only, the error of
`util.GetGVKFromDefinition` is dropped (`gvk, _ :=`), and the second
`if err != nil` tests the same variable. -/
def validateCapabilities (D : SyncDeps) (tmp : Capability) (definitionName reference : String) :
    Capability × Option String :=
  let installed : Capability × Option String :=
    match tmp.Install with
    | none => (tmp, none)
    | some install =>
      ({ tmp with Source := some { RepoName := "", ChartName := install.Helm.Name } },
        D.InstallHelmChart install.Helm)
  match tmp.Install, installed with
  | some install, (tmp, some err) =>
    (tmp, some ("unable to install helm chart dependency " ++ install.Helm.Name ++ "(" ++
      install.Helm.Version ++ " from " ++ install.Helm.URL ++ ") for this trait '" ++
      definitionName ++ "': " ++ err ++ " "))
  | _, (tmp, err) =>
    let gvk := (D.GetGVKFromDefinition reference).1
    match err with
    | some errMsg =>
      let substr := "no matches for "
      let errMsg :=
        if Contains errMsg substr then
          "expected provider: " ++ (SplitSep errMsg substr).getD 1 ""
        else errMsg
      (tmp, some ("installing capability '" ++ definitionName ++ "'... " ++ errMsg))
    | none =>
      let info : CRDInfo := { APIVersion := gvk.GroupVersionString, Kind := gvk.Kind }
      ({ tmp with CrdInfo := some info }, none)

/-- The loop of `GetWorkloadsFromCluster` and of `GetTraitsFromCluster`, which
differ in the capability kind, the word in the message and the applyTo list
passed on. The state is the templates and the collected errors; the result is
what the function returns: the templates, the collected errors and the fatal
error. -/
def syncLoop (D : SyncDeps) (syncDir tp word : String)
    (applyTo : ClusterDefinition → List String) :
    List ClusterDefinition → List Capability → List String →
      List Capability × List String × Option String
  | [], templates, templateErrors => (templates, templateErrors, none)
  | wd :: rest, templates, templateErrors =>
    match HandleDefinition D wd.Name syncDir wd.Reference wd.Annotations wd.Extension tp
        (applyTo wd) with
    | (_, some err) =>
      syncLoop D syncDir tp word applyTo rest templates
        (templateErrors ++
          ["handle " ++ word ++ " template `" ++ wd.Name ++ "` failed: " ++ err])
    | (tmp, none) =>
      match validateCapabilities D tmp wd.Name wd.Reference with
      | (_, some err) => ([], [], some err)
      | (tmp, none) => syncLoop D syncDir tp word applyTo rest (templates ++ [tmp]) templateErrors

/-- `GetWorkloadsFromCluster`: the capabilities, the collected errors and the
fatal error. -/
def GetWorkloadsFromCluster (D : SyncDeps) (namespace_ syncDir selector : String) :
    List Capability × List String × Option String :=
  match D.NewClient with
  | some err => ([], [], some err)
  | none =>
    match D.NewDiscoveryMapper with
    | some err => ([], [], some err)
    | none =>
      match D.ListWorkloadDefinitions namespace_ selector with
      | (_, some err) => ([], [], some ("list WorkloadDefinition err: " ++ err))
      | (items, none) => syncLoop D syncDir TypeWorkload "workload" (fun _ => []) items [] []

/-- `GetTraitsFromCluster`: the capabilities, the collected errors and the fatal
error. -/
def GetTraitsFromCluster (D : SyncDeps) (namespace_ syncDir selector : String) :
    List Capability × List String × Option String :=
  match D.NewClient with
  | some err => ([], [], some err)
  | none =>
    match D.NewDiscoveryMapper with
    | some err => ([], [], some err)
    | none =>
      match D.ListTraitDefinitions namespace_ selector with
      | (_, some err) => ([], [], some ("list TraitDefinition err: " ++ err))
      | (items, none) =>
        syncLoop D syncDir TypeTrait "trait" (fun td => td.AppliesToWorkloads) items [] []

/-- `GetCapabilitiesFromCluster`: the workloads followed by the traits. -/
def GetCapabilitiesFromCluster (D : SyncDeps) (namespace_ syncDir selector : String) :
    List Capability × Option String :=
  match GetWorkloadsFromCluster D namespace_ syncDir selector with
  | (_, _, some err) => ([], some err)
  | (workloads, _, none) =>
    match GetTraitsFromCluster D namespace_ syncDir selector with
    | (_, _, some err) => ([], some err)
    | (traits, _, none) => (workloads ++ traits, none)

/-- A stand-in for the cluster as the sync sees it: the workload definitions
`defs`, an extension that holds the template body itself (an empty one is
rejected as JSON), a discovery that knows the reference `deployments.apps`
only, and files and charts that never fail. -/
def sampleSync (defs : List ClusterDefinition) : SyncDeps where
  AnnDescription := "definition.oam.dev/description"
  ConvertTemplateJSON2Object := fun ext =>
    match ext with
    | none => (emptyCapability, some "no extension in definition")
    | some body =>
      if body = "" then (emptyCapability, some "unexpected end of JSON input")
      else ({ emptyCapability with CueTemplate := body }, none)
  HTTPGet := fun uri => ("", some ("Get " ++ uri ++ ": connection refused"))
  Join := fun parts => String.intercalate "/" parts
  WriteFile := fun _ _ => none
  GetParameters := fun _ _ => ([], none)
  InstallHelmChart := fun _ => none
  GetGVKFromDefinition := fun ref =>
    if ref = "deployments.apps" then ({ Group := "apps", Version := "v1", Kind := "Deployment" }, none)
    else ({ Group := "", Version := "", Kind := "" },
      some ("no matches for " ++ ref ++ "/, Resource="))
  NewClient := none
  NewDiscoveryMapper := none
  ListWorkloadDefinitions := fun _ _ => (defs, none)
  ListTraitDefinitions := fun _ _ => ([], none)

/-- The workload definition `webservice`, backed by `deployments.apps`. -/
def webserviceDef : ClusterDefinition :=
  { Name := "webservice", Reference := "deployments.apps", Annotations := [],
    Extension := some "parameter: image: string", AppliesToWorkloads := [] }

/-- A workload definition whose reference the cluster does not serve. -/
def unknownDef : ClusterDefinition :=
  { Name := "rollout", Reference := "rollouts.example.dev", Annotations := [],
    Extension := some "parameter: image: string", AppliesToWorkloads := [] }

/-- A workload definition whose extension is not valid JSON. -/
def brokenDef : ClusterDefinition :=
  { Name := "broken", Reference := "deployments.apps", Annotations := [],
    Extension := some "", AppliesToWorkloads := [] }

/-- The capability that the sync returns for a definition, as the spec words
it: none for a definition whose `HandleDefinition` fails, and the validated
capability otherwise. -/
def syncedCapability (D : SyncDeps) (syncDir tp : String)
    (applyTo : ClusterDefinition → List String) (wd : ClusterDefinition) :
    Option Capability :=
  match HandleDefinition D wd.Name syncDir wd.Reference wd.Annotations wd.Extension tp
      (applyTo wd) with
  | (_, some _) => none
  | (tmp, none) => some (validateCapabilities D tmp wd.Name wd.Reference).1

/-- The error that the sync collects for a definition, as the spec words it:
the wrapped error of `HandleDefinition` when it fails, none otherwise. -/
def syncError (D : SyncDeps) (syncDir tp word : String)
    (applyTo : ClusterDefinition → List String) (wd : ClusterDefinition) : Option String :=
  match HandleDefinition D wd.Name syncDir wd.Reference wd.Annotations wd.Extension tp
      (applyTo wd) with
  | (_, some err) =>
    some ("handle " ++ word ++ " template `" ++ wd.Name ++ "` failed: " ++ err)
  | (_, none) => none

/-- The environment `prod`, with a domain written as a URL and an issuer. -/
def prodEnv : EnvMeta :=
  { Name := "prod", Namespace := "prod", Email := "", Domain := "https://example.com",
    Issuer := "letsencrypt", Current := "" }

/-! ## The applicability resolver -/

theorem in_iff_mem (l : List String) (v : String) : in_ l v = true ↔ v ∈ l := by
  induction l with
  | nil => simp [in_]
  | cons a l ih =>
    by_cases h : a = v
    · simp [in_, h]
    · have h2 : ¬ v = a := fun e => h e.symm
      simp [in_, h, h2, ih]

theorem check_eq_find (L : StrLib) (e : String) (ws : List Capability) :
    check L e ws =
      match ws.find? (appliesToWorkload L e) with
      | some w => (w.Name, true)
      | none => ("", false) := by
  induction ws with
  | nil => rfl
  | cons w ws ih =>
    by_cases h : Parse L e = w.CrdName ∨ Parse L e = w.Name
    · have h2 : appliesToWorkload L e w = true := by
        simpa [appliesToWorkload] using h
      simp [check, h, List.find?, h2]
    · have h2 : appliesToWorkload L e w = false := by
        simpa [appliesToWorkload] using h
      simp [check, h, List.find?, h2, ih]

theorem convertStep_nodup (L : StrLib) (ws : List Capability) (acc : List String)
    (v : String) (h : acc.Nodup) : (convertStep L ws acc v).Nodup := by
  unfold convertStep
  cases hc : check L v ws with
  | mk newName exist =>
    cases exist with
    | false => simpa using h
    | true =>
      by_cases hin : in_ acc newName = true
      · simpa [hin] using h
      · have hnot : newName ∉ acc := fun hm => hin ((in_iff_mem _ _).2 hm)
        simp only [Bool.not_eq_true] at hin
        simp only [hin, Bool.not_true, Bool.false_eq_true, if_false, Bool.not_false, if_true]
        exact List.Nodup.append h (List.nodup_singleton _) (by simpa using hnot)

theorem foldl_convertStep_nodup (L : StrLib) (ws : List Capability) (es : List String) :
    ∀ acc : List String, acc.Nodup → (es.foldl (convertStep L ws) acc).Nodup := by
  induction es with
  | nil => intro acc h; simpa using h
  | cons e es ih =>
    intro acc h
    simpa using ih _ (convertStep_nodup L ws acc e h)

theorem convertStep_eq (L : StrLib) (ws : List Capability) (acc : List String) (e : String) :
    convertStep L ws acc e =
      match ws.find? (appliesToWorkload L e) with
      | some w => if w.Name ∈ acc then acc else acc ++ [w.Name]
      | none => acc := by
  unfold convertStep
  rw [check_eq_find]
  cases ws.find? (appliesToWorkload L e) with
  | none => simp
  | some w =>
    by_cases hin : w.Name ∈ acc
    · simp [hin, (in_iff_mem acc w.Name).2 hin]
    · have h2 : in_ acc w.Name = false := by
        cases hb : in_ acc w.Name with
        | false => rfl
        | true => exact absurd ((in_iff_mem _ _).1 hb) hin
      simp [hin, h2]

theorem filter_ne_of_mem (l acc : List String) (n : String) (hn : n ∈ acc) :
    (l.filter fun y => decide (y ≠ n)).filter (fun y => decide (y ∉ acc)) =
      l.filter (fun y => decide (y ∉ acc)) := by
  rw [List.filter_filter]
  apply List.filter_congr
  intro y _
  by_cases hy : y = n
  · subst hy; simp [hn]
  · simp [hy]

theorem filter_not_mem_append (l acc : List String) (n : String) :
    l.filter (fun y => decide (y ∉ acc ++ [n])) =
      (l.filter fun y => decide (y ≠ n)).filter (fun y => decide (y ∉ acc)) := by
  rw [List.filter_filter]
  apply List.filter_congr
  intro y _
  by_cases hy : y = n
  · subst hy; simp
  · simp [hy]

theorem foldl_convertStep_eq (L : StrLib) (ws : List Capability) (es : List String) :
    ∀ acc : List String,
      es.foldl (convertStep L ws) acc =
        acc ++ (resolveSpec L es ws).filter (fun y => decide (y ∉ acc)) := by
  induction es with
  | nil => intro acc; simp [resolveSpec, firstSeen]
  | cons e es ih =>
    intro acc
    rw [List.foldl_cons, ih, convertStep_eq]
    unfold resolveSpec at *
    cases hf : ws.find? (appliesToWorkload L e) with
    | none => simp [List.filterMap_cons, hf]
    | some w =>
      simp only [List.filterMap_cons, hf, Option.map_some', firstSeen]
      by_cases hin : w.Name ∈ acc
      · simp only [hin, if_true]
        rw [List.filter_cons]
        simp only [hin, not_true_eq_false, decide_False, Bool.false_eq_true, if_false]
        rw [filter_ne_of_mem _ _ _ hin]
      · simp only [hin, if_false]
        rw [List.filter_cons]
        simp only [hin, not_false_eq_true, decide_True, if_true]
        rw [filter_not_mem_append, List.append_assoc]
        rfl

theorem ConvertApplyTo_eq_resolveSpec (L : StrLib) (applyTo : List String)
    (workloads : List Capability) :
    ConvertApplyTo L applyTo workloads = resolveSpec L applyTo workloads := by
  unfold ConvertApplyTo
  rw [foldl_convertStep_eq]
  simp

theorem mem_firstSeen (l : List String) (n : String) : n ∈ firstSeen l ↔ n ∈ l := by
  induction l with
  | nil => simp [firstSeen]
  | cons a l ih =>
    by_cases h : n = a
    · simp [firstSeen, h]
    · simp [firstSeen, h, ih]

theorem mem_resolveSpec (L : StrLib) (applyTo : List String) (workloads : List Capability)
    (n : String) (h : n ∈ resolveSpec L applyTo workloads) :
    ∃ e ∈ applyTo, ∃ w ∈ workloads,
      (Parse L e = w.CrdName ∨ Parse L e = w.Name) ∧ w.Name = n := by
  unfold resolveSpec at h
  rw [mem_firstSeen, List.mem_filterMap] at h
  obtain ⟨e, he, hw⟩ := h
  cases hf : workloads.find? (appliesToWorkload L e) with
  | none => simp [hf] at hw
  | some w =>
    simp only [hf, Option.map_some', Option.some.injEq] at hw
    refine ⟨e, he, w, List.mem_of_find?_eq_some hf, ?_, hw⟩
    have := List.find?_some hf
    simpa [appliesToWorkload] using this

theorem check_perm (L : StrLib) (e : String) (ws1 ws2 : List Capability)
    (hperm : ws1.Perm ws2)
    (huniq : ∀ w1 ∈ ws1, ∀ w2 ∈ ws1, (Parse L e = w1.CrdName ∨ Parse L e = w1.Name) →
      (Parse L e = w2.CrdName ∨ Parse L e = w2.Name) → w1.Name = w2.Name) :
    check L e ws1 = check L e ws2 := by
  rw [check_eq_find, check_eq_find]
  cases h1 : ws1.find? (appliesToWorkload L e) with
  | none =>
    have h2 : ws2.find? (appliesToWorkload L e) = none := by
      rw [List.find?_eq_none] at h1 ⊢
      intro w hw
      exact h1 w (hperm.mem_iff.2 hw)
    rw [h2]
  | some w1 =>
    have hm1 : appliesToWorkload L e w1 = true := List.find?_some h1
    have hw1 : w1 ∈ ws1 := List.mem_of_find?_eq_some h1
    cases h2 : ws2.find? (appliesToWorkload L e) with
    | none =>
      rw [List.find?_eq_none] at h2
      exact absurd hm1 (h2 w1 (hperm.mem_iff.1 hw1))
    | some w2 =>
      have hm2 : appliesToWorkload L e w2 = true := List.find?_some h2
      have hw2 : w2 ∈ ws1 := hperm.mem_iff.2 (List.mem_of_find?_eq_some h2)
      have hn : w1.Name = w2.Name :=
        huniq w1 hw1 w2 hw2 (by simpa [appliesToWorkload] using hm1)
          (by simpa [appliesToWorkload] using hm2)
      simp [hn]

theorem foldl_convertStep_congr (L : StrLib) (ws1 ws2 : List Capability) (es : List String)
    (h : ∀ e ∈ es, check L e ws1 = check L e ws2) :
    ∀ acc : List String,
      es.foldl (convertStep L ws1) acc = es.foldl (convertStep L ws2) acc := by
  induction es with
  | nil => intro acc; rfl
  | cons e es ih =>
    intro acc
    have he : convertStep L ws1 acc e = convertStep L ws2 acc e := by
      unfold convertStep
      rw [h e (List.mem_cons_self _ _)]
    rw [List.foldl_cons, List.foldl_cons, he]
    exact ih (fun e' he' => h e' (List.mem_cons_of_mem _ he')) _

/-- C1: the list returned by `ConvertApplyTo` contains no name twice, whatever
the applyTo entries and the workloads are. -/
theorem ConvertApplyTo_nodup (L : StrLib) (applyTo : List String)
    (workloads : List Capability) : (ConvertApplyTo L applyTo workloads).Nodup :=
  foldl_convertStep_nodup L workloads applyTo [] List.nodup_nil

/-- C2 at a failing input: `webservice` and `worker` are both backed by
`deployments.apps`, so the trait entry `apps/v1.Deployment` applies to both.
`check` stops at the first match, so the entry resolves to whichever of the two
comes first in the workload list and the other one is never named; narrowing
the trait `route` to `worker` then gives no trait at all for one order of the
workloads and the trait for the other order. -/
theorem ConvertApplyTo_order_sensitive :
    [webservice, worker].Perm [worker, webservice] ∧
    ConvertApplyTo sampleLib ["apps/v1.Deployment"] [webservice, worker] = ["webservice"] ∧
    ConvertApplyTo sampleLib ["apps/v1.Deployment"] [worker, webservice] = ["worker"] ∧
    ConvertApplyTo sampleLib ["deployments.apps"] [webservice, worker] ≠
      ConvertApplyTo sampleLib ["deployments.apps"] [worker, webservice] ∧
    convertAllAppliyToList sampleLib [route] [webservice, worker] (some "worker") =
      some [] ∧
    convertAllAppliyToList sampleLib [route] [worker, webservice] (some "worker") =
      some [{ route with AppliesTo := ["worker"] }] :=
  ⟨List.Perm.swap _ _ _, by decide, by decide, by decide, by decide, by decide⟩

/-- Where the order of the workloads cannot matter: `ConvertApplyTo` returns the
same list for two workload lists that are permutations of each other when the
workloads matching one and the same applyTo entry all carry the same name. -/
theorem ConvertApplyTo_perm (L : StrLib) (applyTo : List String)
    (ws1 ws2 : List Capability) (hperm : ws1.Perm ws2)
    (huniq : ∀ e ∈ applyTo, ∀ w1 ∈ ws1, ∀ w2 ∈ ws1,
      (Parse L e = w1.CrdName ∨ Parse L e = w1.Name) →
      (Parse L e = w2.CrdName ∨ Parse L e = w2.Name) → w1.Name = w2.Name) :
    ConvertApplyTo L applyTo ws1 = ConvertApplyTo L applyTo ws2 :=
  foldl_convertStep_congr L ws1 ws2 applyTo
    (fun e he => check_perm L e ws1 ws2 hperm (huniq e he)) []

/-- The order of two workloads with distinct backing kinds does not matter. -/
theorem ConvertApplyTo_perm_witness :
    ConvertApplyTo sampleLib ["apps/v1.Deployment", "batch/v1.Job"] [webservice, task] =
      ConvertApplyTo sampleLib ["apps/v1.Deployment", "batch/v1.Job"] [task, webservice] :=
  ConvertApplyTo_perm sampleLib ["apps/v1.Deployment", "batch/v1.Job"]
    [webservice, task] [task, webservice] (List.Perm.swap _ _ _) (by decide)

/-- C3: `ConvertApplyTo` is the list the spec describes (entries walked in
order, the name of a matching workload taken for each, unmatched entries and
names already emitted dropped); every returned name is the name of a workload
that matches an entry; the result is empty when nothing matches; and the entry
`apps/v1.Deployment` resolves to `webservice` against a workload of that name
backed by `deployments.apps`. -/
theorem ConvertApplyTo_spec (L : StrLib) :
    (∀ applyTo workloads,
      ConvertApplyTo L applyTo workloads = resolveSpec L applyTo workloads) ∧
    (∀ applyTo workloads, ∀ n ∈ ConvertApplyTo L applyTo workloads,
      ∃ e ∈ applyTo, ∃ w ∈ workloads,
        (Parse L e = w.CrdName ∨ Parse L e = w.Name) ∧ w.Name = n) ∧
    (∀ applyTo workloads,
      (∀ e ∈ applyTo, ∀ w ∈ workloads, ¬ (Parse L e = w.CrdName ∨ Parse L e = w.Name)) →
      ConvertApplyTo L applyTo workloads = []) ∧
    (∀ w : Capability, L.Plural (L.ToLower "Deployment") = "deployments" →
      w.Name = "webservice" → w.CrdName = "deployments.apps" →
      ConvertApplyTo L ["apps/v1.Deployment"] [w] = ["webservice"]) := by
  refine ⟨ConvertApplyTo_eq_resolveSpec L, ?_, ?_, ?_⟩
  · intro applyTo workloads n hn
    rw [ConvertApplyTo_eq_resolveSpec] at hn
    exact mem_resolveSpec L applyTo workloads n hn
  · intro applyTo workloads hno
    rw [List.eq_nil_iff_forall_not_mem]
    intro n hn
    rw [ConvertApplyTo_eq_resolveSpec] at hn
    obtain ⟨e, he, w, hw, hm, _⟩ := mem_resolveSpec L applyTo workloads n hn
    exact hno e he w hw hm
  · intro w hpl hname hcrd
    have h1 : Split "apps/v1.Deployment" '/' = ["apps", "v1.Deployment"] := by decide
    have h2 : Split "v1.Deployment" '.' = ["v1", "Deployment"] := by decide
    have hp : Parse L "apps/v1.Deployment" = "deployments.apps" := by
      simp only [Parse, h1, h2, hpl]
      decide
    simp [ConvertApplyTo, convertStep, check, hp, hcrd, hname, in_]

/-- C3, at the stand-in library and the workload `webservice`. -/
theorem ConvertApplyTo_spec_witness :
    ConvertApplyTo sampleLib ["apps/v1.Deployment"] [webservice] = ["webservice"] :=
  (ConvertApplyTo_spec sampleLib).2.2.2 webservice (by decide) rfl rfl

/-! ## Parse -/

theorem splitChars_ne_nil (sep : Char) (l : List Char) : splitChars sep l ≠ [] := by
  cases l with
  | nil => simp [splitChars]
  | cons c cs =>
    unfold splitChars
    by_cases h : c = sep
    · simp [h]
    · simp only [h, if_false]
      cases splitChars sep cs <;> simp

theorem splitChars_of_not_mem (sep : Char) (l : List Char) (h : sep ∉ l) :
    splitChars sep l = [l] := by
  induction l with
  | nil => rfl
  | cons c cs ih =>
    have hc : ¬ c = sep := fun e => h (by simp [e])
    have hcs : sep ∉ cs := fun e => h (List.mem_cons_of_mem _ e)
    simp [splitChars, hc, ih hcs]

theorem splitChars_append_sep (sep : Char) (l r : List Char) (h : sep ∉ l) :
    splitChars sep (l ++ sep :: r) = l :: splitChars sep r := by
  induction l with
  | nil => simp [splitChars]
  | cons c cs ih =>
    have hc : ¬ c = sep := fun e => h (by simp [e])
    have hcs : sep ∉ cs := fun e => h (List.mem_cons_of_mem _ e)
    simp [splitChars, hc, ih hcs]

theorem Split_group (g rest : String) (hg : '/' ∉ g.data) (hr : '/' ∉ rest.data) :
    Split (g ++ "/" ++ rest) '/' = [g, rest] := by
  have hd : (g ++ "/" ++ rest).data = g.data ++ '/' :: rest.data := by
    simp [String.data_append]
  simp [Split, hd, splitChars_append_sep _ _ _ hg, splitChars_of_not_mem _ _ hr]

theorem Split_versionKind (v k : String) (hv : '.' ∉ v.data) (hk : '.' ∉ k.data) :
    Split (v ++ "." ++ k) '.' = [v, k] := by
  have hd : (v ++ "." ++ k).data = v.data ++ '.' :: k.data := by
    simp [String.data_append]
  simp [Split, hd, splitChars_append_sep _ _ _ hv, splitChars_of_not_mem _ _ hk]

/-- C4: for a group without `/` and a version and a kind without `/` and `.`,
`Parse` of `group/version.kind` is the plural of the lower-cased kind, a dot and
the group; an input that does not split into exactly two parts on `/`, or whose
second part does not split into exactly two parts on `.`, is returned
unchanged. -/
theorem Parse_spec (L : StrLib) :
    (∀ g v k : String, '/' ∉ g.data → '/' ∉ v.data → '.' ∉ v.data →
      '/' ∉ k.data → '.' ∉ k.data →
      Parse L (g ++ "/" ++ v ++ "." ++ k) = L.Plural (L.ToLower k) ++ "." ++ g) ∧
    (∀ s : String, (Split s '/').length ≠ 2 → Parse L s = s) ∧
    (∀ s a b : String, Split s '/' = [a, b] → (Split b '.').length ≠ 2 →
      Parse L s = s) := by
  refine ⟨?_, ?_, ?_⟩
  · intro g v k hg hv1 hv2 hk1 hk2
    have hr : '/' ∉ (v ++ "." ++ k).data := by
      simp [String.data_append, hv1, hk1]
    have he : g ++ "/" ++ v ++ "." ++ k = g ++ "/" ++ (v ++ "." ++ k) := by
      simp [String.append_assoc]
    rw [he]
    simp only [Parse, Split_group g _ hg hr, Split_versionKind v k hv2 hk2]
  · intro s hs
    unfold Parse
    split
    · rename_i heq
      rw [heq] at hs
      exact absurd rfl hs
    · rfl
  · intro s a b hab hb
    unfold Parse
    rw [hab]
    simp only
    split
    · rename_i heq
      rw [heq] at hb
      exact absurd rfl hb
    · rfl

/-- C4, at `apps/v1.Deployment`, `core.oam.dev/v1alpha2.ContainerizedWorkload`,
and two inputs of another shape. -/
theorem Parse_spec_witness :
    Parse sampleLib ("apps" ++ "/" ++ "v1" ++ "." ++ "Deployment") = "deployments.apps" ∧
    Parse sampleLib ("core.oam.dev" ++ "/" ++ "v1alpha2" ++ "." ++ "ContainerizedWorkload") =
      "containerizedworkloads.core.oam.dev" ∧
    Parse sampleLib "webservice" = "webservice" ∧
    Parse sampleLib "apps/v1/Deployment" = "apps/v1/Deployment" ∧
    Parse sampleLib "apps/Deployment" = "apps/Deployment" :=
  ⟨(Parse_spec sampleLib).1 "apps" "v1" "Deployment"
      (by decide) (by decide) (by decide) (by decide) (by decide),
   (Parse_spec sampleLib).1 "core.oam.dev" "v1alpha2" "ContainerizedWorkload"
      (by decide) (by decide) (by decide) (by decide) (by decide),
   (Parse_spec sampleLib).2.1 "webservice" (by decide),
   (Parse_spec sampleLib).2.1 "apps/v1/Deployment" (by decide),
   (Parse_spec sampleLib).2.2 "apps/Deployment" "apps" "Deployment" (by decide) (by decide)⟩

/-! ## Narrowing to one workload -/

theorem foldl_convertAllStep_named (L : StrLib) (workloads : List Capability) (n : String)
    (hn : n ≠ "") (traits : List Capability) :
    ∀ acc : List Capability,
      traits.foldl (convertAllStep L workloads n) acc =
        acc ++ (traits.filter fun t =>
          decide (n ∈ ConvertApplyTo L t.AppliesTo workloads)).map
            fun t => { t with AppliesTo := [n] } := by
  induction traits with
  | nil => intro acc; simp
  | cons t ts ih =>
    intro acc
    rw [List.foldl_cons, ih]
    by_cases hin : n ∈ ConvertApplyTo L t.AppliesTo workloads
    · have h2 : in_ (ConvertApplyTo L t.AppliesTo workloads) n = true :=
        (in_iff_mem _ _).2 hin
      simp [convertAllStep, hn, h2, hin]
    · have h2 : in_ (ConvertApplyTo L t.AppliesTo workloads) n = false := by
        cases hb : in_ (ConvertApplyTo L t.AppliesTo workloads) n with
        | false => rfl
        | true => exact absurd ((in_iff_mem _ _).1 hb) hin
      simp [convertAllStep, hn, h2, hin]

theorem foldl_convertAllStep_all (L : StrLib) (workloads : List Capability)
    (traits : List Capability) :
    ∀ acc : List Capability,
      traits.foldl (convertAllStep L workloads "") acc =
        acc ++ traits.map fun t =>
          { t with AppliesTo := ConvertApplyTo L t.AppliesTo workloads } := by
  induction traits with
  | nil => intro acc; simp
  | cons t ts ih =>
    intro acc
    rw [List.foldl_cons, ih]
    simp [convertAllStep]

/-- C5: for a non-empty workload name `n`, `convertAllAppliyToList` returns, in
input order, the traits whose converted applyTo list contains `n`, each with
`AppliesTo` replaced by `[n]`; for the empty name it returns every trait with
`AppliesTo` replaced by its converted applyTo list. -/
theorem convertAllAppliyToList_spec (L : StrLib) (traits workloads : List Capability) :
    (∀ n : String, n ≠ "" →
      convertAllAppliyToList L traits workloads (some n) =
        some ((traits.filter fun t =>
          decide (n ∈ ConvertApplyTo L t.AppliesTo workloads)).map
            fun t => { t with AppliesTo := [n] })) ∧
    convertAllAppliyToList L traits workloads (some "") =
      some (traits.map fun t =>
        { t with AppliesTo := ConvertApplyTo L t.AppliesTo workloads }) := by
  constructor
  · intro n hn
    cases traits with
    | nil => rfl
    | cons t ts =>
      simp only [convertAllAppliyToList]
      rw [foldl_convertAllStep_named L workloads n hn]
      simp
  · cases traits with
    | nil => rfl
    | cons t ts =>
      simp only [convertAllAppliyToList]
      rw [foldl_convertAllStep_all]
      simp

/-- C5, at the traits `route` and `cron` narrowed to `webservice`. -/
theorem convertAllAppliyToList_spec_witness :
    convertAllAppliyToList sampleLib [route, cron] [webservice, task] (some "webservice") =
      some [{ route with AppliesTo := ["webservice"] }] :=
  (convertAllAppliyToList_spec sampleLib [route, cron] [webservice, task]).1
    "webservice" (by decide)

/-! ## Go maps -/

namespace GoMap

theorem get_set_self {β : Type} (m : GoMap β) (k : String) (v : β) :
    get (set m k v) k = some v := by
  induction m with
  | nil => simp [set, get]
  | cons kv m ih =>
    obtain ⟨k', v'⟩ := kv
    by_cases h : k' = k
    · simp [set, get, h]
    · simp [set, get, h, ih]

theorem get_set_ne {β : Type} (m : GoMap β) (k k' : String) (v : β) (hne : k' ≠ k) :
    get (set m k v) k' = get m k' := by
  induction m with
  | nil =>
    have h : ¬ k = k' := fun e => hne e.symm
    simp [set, get, h]
  | cons kv m ih =>
    obtain ⟨k0, v0⟩ := kv
    by_cases h : k0 = k
    · have h2 : ¬ k = k' := fun e => hne e.symm
      have h3 : ¬ k0 = k' := fun e => h2 (h ▸ e)
      simp [set, get, h, h2, h3]
    · by_cases h4 : k0 = k'
      · subst h4
        simp [set, get, h]
      · simp [set, get, h, h4, ih]

theorem get_delete_self {β : Type} (m : GoMap β) (k : String) :
    get (delete m k) k = none := by
  induction m with
  | nil => simp [delete, get]
  | cons kv m ih =>
    obtain ⟨k0, v0⟩ := kv
    by_cases h : k0 = k
    · simpa [delete, List.filter_cons, h] using ih
    · simpa [delete, List.filter_cons, h, get] using ih

theorem get_delete_ne {β : Type} (m : GoMap β) (k k' : String) (hne : k' ≠ k) :
    get (delete m k) k' = get m k' := by
  induction m with
  | nil => simp [delete, get]
  | cons kv m ih =>
    obtain ⟨k0, v0⟩ := kv
    by_cases h : k0 = k
    · subst h
      have h2 : ¬ k0 = k' := fun e => hne e.symm
      simpa [delete, List.filter_cons, get, h2] using ih
    · by_cases h4 : k0 = k'
      · subst h4
        simp [delete, List.filter_cons, h, get]
      · simpa [delete, List.filter_cons, h, get, h4] using ih

theorem get_eq_none_iff {β : Type} (m : GoMap β) (k : String) :
    get m k = none ↔ k ∉ m.map Prod.fst := by
  induction m with
  | nil => simp [get]
  | cons kv m ih =>
    obtain ⟨k0, v0⟩ := kv
    by_cases h : k0 = k
    · simp [get, h]
    · have h2 : ¬ k = k0 := fun e => h e.symm
      simp [get, h, h2, ih]

theorem get_merge_of_none {β : Type} (src : GoMap β) (k : String) :
    ∀ dst : GoMap β, get src k = none → get (merge dst src) k = get dst k := by
  induction src with
  | nil => intro dst _; rfl
  | cons kv src ih =>
    obtain ⟨k0, v0⟩ := kv
    intro dst h
    by_cases h0 : k0 = k
    · simp [get, h0] at h
    · simp only [get, h0, if_false] at h
      have := ih (set dst k0 v0) h
      simp only [merge, List.foldl_cons] at this ⊢
      rw [this]
      exact get_set_ne dst k0 k v0 (fun e => h0 e.symm)

theorem get_merge_of_some {β : Type} (src : GoMap β) (k : String) (v : β) :
    ∀ dst : GoMap β, WF src → get src k = some v → get (merge dst src) k = some v := by
  induction src with
  | nil => intro dst _ h; simp [get] at h
  | cons kv src ih =>
    obtain ⟨k0, v0⟩ := kv
    intro dst hwf h
    have hwf2 : k0 ∉ src.map Prod.fst ∧ WF src := by
      simpa [WF, List.nodup_cons] using hwf
    by_cases h0 : k0 = k
    · subst h0
      simp only [get, if_true, Option.some.injEq] at h
      subst h
      have hn : get src k0 = none := (get_eq_none_iff src k0).2 hwf2.1
      have := get_merge_of_none src k0 (set dst k0 v0) hn
      simp only [merge, List.foldl_cons] at this ⊢
      rw [this]
      exact get_set_self dst k0 v0
    · simp only [get, h0, if_false] at h
      have := ih (set dst k0 v0) hwf2.2 h
      simpa only [merge, List.foldl_cons] using this

theorem get_merge_isSome {β : Type} (src : GoMap β) (k : String) :
    ∀ dst : GoMap β, (get dst k).isSome = true → (get (merge dst src) k).isSome = true := by
  induction src with
  | nil => intro dst h; exact h
  | cons kv src ih =>
    obtain ⟨k0, v0⟩ := kv
    intro dst h
    have hs : (get (set dst k0 v0) k).isSome = true := by
      by_cases h0 : k = k0
      · subst h0; simp [get_set_self]
      · rw [get_set_ne dst k0 k v0 h0]; exact h
    have := ih (set dst k0 v0) hs
    simpa only [merge, List.foldl_cons] using this

end GoMap

/-! ## The document assembler -/

theorem component_SetWorkload (Validate : Application → Option String) (a : Application)
    (c wt : String) (d : GoMap Value) :
    component (SetWorkload Validate (some a) c wt d).1 c =
      some (GoMap.merge
        (GoMap.set (match GoMap.get a.Services c with
          | some s => s
          | none => []) "type" (Value.str wt)) d) := by
  simp only [SetWorkload, component]
  exact GoMap.get_set_self _ _ _

theorem component_SetWorkload_ne (Validate : Application → Option String) (a : Application)
    (c c' wt : String) (d : GoMap Value) (h : c' ≠ c) :
    component (SetWorkload Validate (some a) c wt d).1 c' = component (some a) c' := by
  simp only [SetWorkload, component]
  exact GoMap.get_set_ne _ _ _ _ h

theorem componentKey_old (a : Application) (c k : String) :
    componentKey (some a) c k =
      GoMap.get (match GoMap.get a.Services c with
        | some s => s
        | none => ([] : Service)) k := by
  simp only [componentKey, component]
  cases GoMap.get a.Services c <;> rfl

/-- C6: `SetWorkload` merges by key. After the call on a non-nil app the
component document of `c` maps every key of the workload data to its value
there, keeps the previous value of every key that is neither in the data nor
`type`, and every other component is unchanged. -/
theorem SetWorkload_merge (Validate : Application → Option String) (a : Application)
    (c wt : String) (d : GoMap Value) (hd : GoMap.WF d) :
    (∀ k v, GoMap.get d k = some v →
      componentKey (SetWorkload Validate (some a) c wt d).1 c k = some v) ∧
    (∀ k, GoMap.get d k = none → k ≠ "type" →
      componentKey (SetWorkload Validate (some a) c wt d).1 c k =
        componentKey (some a) c k) ∧
    (∀ c', c' ≠ c →
      component (SetWorkload Validate (some a) c wt d).1 c' = component (some a) c') := by
  refine ⟨?_, ?_, ?_⟩
  · intro k v hk
    unfold componentKey
    rw [component_SetWorkload]
    exact GoMap.get_merge_of_some d k v _ hd hk
  · intro k hk hne
    rw [componentKey_old]
    unfold componentKey
    rw [component_SetWorkload]
    simp only
    rw [GoMap.get_merge_of_none d k _ hk, GoMap.get_set_ne _ _ _ _ hne]
  · intro c' hc'
    exact component_SetWorkload_ne Validate a c c' wt d hc'

/-- C6, at the component `web` of the demo application. -/
theorem SetWorkload_merge_witness :
    componentKey (SetWorkload validateOk (some demoApp) "web" "worker"
      [("image", Value.str "busybox"), ("port", Value.int 80)]).1 "web" "image" =
        some (Value.str "busybox") ∧
    componentKey (SetWorkload validateOk (some demoApp) "web" "worker"
      [("image", Value.str "busybox"), ("port", Value.int 80)]).1 "web" "route" =
        componentKey (some demoApp) "web" "route" ∧
    component (SetWorkload validateOk (some demoApp) "web" "worker"
      [("image", Value.str "busybox"), ("port", Value.int 80)]).1 "job" =
        component (some demoApp) "job" :=
  have h := SetWorkload_merge validateOk demoApp "web" "worker"
    [("image", Value.str "busybox"), ("port", Value.int 80)] (by decide)
  ⟨h.1 "image" (Value.str "busybox") rfl, h.2.1 "route" rfl (by decide),
    h.2.2 "job" (by decide)⟩

/-- C7, as stated, fails: workload data with a key `type` overwrites the
workload type that was written just before the merge. -/
theorem SetWorkload_type_overwritten :
    componentKey (SetWorkload validateOk (some emptyApp) "web" "webservice"
      [("type", Value.str "worker")]).1 "web" "type" = some (Value.str "worker") ∧
    some (Value.str "worker") ≠ some (Value.str "webservice") :=
  ⟨rfl, by simp⟩

/-- C7, amended: after `SetWorkload` on a non-nil app the key `type` of the
component holds the workload type when the workload data has no key `type`, and
the data's own value for `type` when it has one. -/
theorem SetWorkload_type (Validate : Application → Option String) (a : Application)
    (c wt : String) (d : GoMap Value) (hd : GoMap.WF d) :
    (GoMap.get d "type" = none →
      componentKey (SetWorkload Validate (some a) c wt d).1 c "type" =
        some (Value.str wt)) ∧
    (∀ v, GoMap.get d "type" = some v →
      componentKey (SetWorkload Validate (some a) c wt d).1 c "type" = some v) := by
  constructor
  · intro h
    unfold componentKey
    rw [component_SetWorkload]
    simp only
    rw [GoMap.get_merge_of_none d "type" _ h, GoMap.get_set_self]
  · intro v h
    unfold componentKey
    rw [component_SetWorkload]
    exact GoMap.get_merge_of_some d "type" v _ hd h

/-- C7 (amended), at workload data without and with a key `type`. -/
theorem SetWorkload_type_witness :
    componentKey (SetWorkload validateOk (some demoApp) "web" "worker"
      [("image", Value.str "busybox")]).1 "web" "type" = some (Value.str "worker") ∧
    componentKey (SetWorkload validateOk (some demoApp) "web" "worker"
      [("type", Value.str "task")]).1 "web" "type" = some (Value.str "task") :=
  ⟨(SetWorkload_type validateOk demoApp "web" "worker"
      [("image", Value.str "busybox")] (by decide)).1 rfl,
   (SetWorkload_type validateOk demoApp "web" "worker"
      [("type", Value.str "task")] (by decide)).2 (Value.str "task") rfl⟩

theorem SetTrait_of_slot (a : Application) (c t : String) (d : GoMap Value)
    (hslot : componentKey (some a) c t = none ∨
      ∃ m, componentKey (some a) c t = some (Value.map m)) :
    ∃ m : GoMap Value, ∀ Validate : Application → Option String,
      SetTrait Validate (some a) c t d =
        some (some ⟨a.Name, GoMap.set a.Services c
                (GoMap.set (match GoMap.get a.Services c with
                  | some s => s
                  | none => []) t (Value.map m))⟩,
              Validate ⟨a.Name, GoMap.set a.Services c
                (GoMap.set (match GoMap.get a.Services c with
                  | some s => s
                  | none => []) t (Value.map m))⟩) := by
  rw [componentKey_old] at hslot
  rcases hslot with h | ⟨m, h⟩
  · exact ⟨GoMap.merge [] d, fun _ => by simp only [SetTrait, h]⟩
  · exact ⟨GoMap.merge m d, fun _ => by simp only [SetTrait, h]⟩

theorem SetTrait_shape (Validate : Application → Option String) (a : Application)
    (c t : String) (d : GoMap Value) (r : Option Application × Option String)
    (h : SetTrait Validate (some a) c t d = some r) :
    ∃ m : GoMap Value,
      r = (some ⟨a.Name, GoMap.set a.Services c
                (GoMap.set (match GoMap.get a.Services c with
                  | some s => s
                  | none => []) t (Value.map m))⟩,
            Validate ⟨a.Name, GoMap.set a.Services c
                (GoMap.set (match GoMap.get a.Services c with
                  | some s => s
                  | none => []) t (Value.map m))⟩) := by
  simp only [SetTrait] at h
  split at h
  · rename_i tm _
    exact ⟨GoMap.merge tm d, (Option.some.inj h).symm⟩
  · exact absurd h (by simp)

/-- C8, as stated, fails: when the validation at the end of `SetWorkload` or
`SetTrait` rejects the document, the error is returned but the component that
was added and the keys that were written stay in the application. -/
theorem Set_not_rolled_back :
    (SetWorkload validateNamed (some unnamedApp) "web" "webservice" []).2 =
      some "name is required" ∧
    component (some unnamedApp) "web" = none ∧
    component (SetWorkload validateNamed (some unnamedApp) "web" "webservice" []).1 "web" =
      some [("type", Value.str "webservice")] ∧
    (SetTrait validateNamed (some unnamedApp) "web" "route"
        [("domain", Value.str "a.example.com")]).map
      (fun r => (component r.1 "web", r.2)) =
      some (some [("route", Value.map [("domain", Value.str "a.example.com")])],
        some "name is required") :=
  ⟨rfl, rfl, rfl, rfl⟩

/-- C8, amended: on a non-nil app `SetWorkload`, and `SetTrait` when the
component's entry for the trait kind is absent or a map, return the verdict of
the validation on the merged document, and leave the merged document in the
application whatever the verdict is: the state after a rejected call is the
state after an accepted one, with the component present. -/
theorem Set_keeps_merge (Validate : Application → Option String) (a : Application)
    (c : String) :
    (∀ wt d, ∃ a1,
      SetWorkload Validate (some a) c wt d = (some a1, Validate a1) ∧
      SetWorkload validateOk (some a) c wt d = (some a1, none) ∧
      (component (some a1) c).isSome = true) ∧
    (∀ t d, (componentKey (some a) c t = none ∨
        ∃ m, componentKey (some a) c t = some (Value.map m)) →
      ∃ a1,
        SetTrait Validate (some a) c t d = some (some a1, Validate a1) ∧
        SetTrait validateOk (some a) c t d = some (some a1, none) ∧
        (component (some a1) c).isSome = true) := by
  constructor
  · intro wt d
    refine ⟨_, rfl, rfl, ?_⟩
    simp [component, GoMap.get_set_self]
  · intro t d hslot
    obtain ⟨m, hm⟩ := SetTrait_of_slot a c t d hslot
    refine ⟨_, hm Validate, hm validateOk, ?_⟩
    simp [component, GoMap.get_set_self]

/-- C8 (amended), at the application without a name, which the validation
rejects: a workload and a trait set on the new component `web` stay in the
application although the call returns the error. -/
theorem Set_keeps_merge_witness :
    (∃ a1,
      SetWorkload validateNamed (some unnamedApp) "web" "webservice" [] =
        (some a1, validateNamed a1) ∧
      SetWorkload validateOk (some unnamedApp) "web" "webservice" [] = (some a1, none) ∧
      (component (some a1) "web").isSome = true ∧
      validateNamed a1 = some "name is required") ∧
    (∃ a1,
      SetTrait validateNamed (some unnamedApp) "web" "route"
          [("domain", Value.str "a.example.com")] = some (some a1, validateNamed a1) ∧
      SetTrait validateOk (some unnamedApp) "web" "route"
          [("domain", Value.str "a.example.com")] = some (some a1, none) ∧
      (component (some a1) "web").isSome = true ∧
      validateNamed a1 = some "name is required") := by
  constructor
  · obtain ⟨a1, h1, h2, h3⟩ :=
      (Set_keeps_merge validateNamed unnamedApp "web").1 "webservice" []
    refine ⟨a1, h1, h2, h3, ?_⟩
    have h4 : ((some (⟨"", [("web", [("type", Value.str "webservice")])]⟩ : Application),
        (none : Option String)) : Option Application × Option String) = (some a1, none) := h2
    cases h4
    rfl
  · obtain ⟨a1, h1, h2, h3⟩ :=
      (Set_keeps_merge validateNamed unnamedApp "web").2 "route"
        [("domain", Value.str "a.example.com")] (Or.inl rfl)
    refine ⟨a1, h1, h2, h3, ?_⟩
    have h4 : (some ((some (⟨"", [("web", [("route",
        Value.map [("domain", Value.str "a.example.com")])])]⟩ : Application),
        (none : Option String))) : Option (Option Application × Option String)) =
        some (some a1, none) := h2
    cases h4
    rfl

/-! ## The `type` key -/

theorem typedApp_demoApp : typedApp (some demoApp) := by
  intro c s h
  simp only [component, demoApp, GoMap.get] at h
  split_ifs at h <;> simp only [Option.some.injEq] at h <;> subst h <;> rfl

theorem typedApp_set (a : Application) (c : String) (s : Service)
    (h : typedApp (some a)) (hs : (GoMap.get s "type").isSome = true) :
    typedApp (some ⟨a.Name, GoMap.set a.Services c s⟩) := by
  intro c' s' h'
  simp only [component] at h'
  by_cases hc : c' = c
  · subst hc
    rw [GoMap.get_set_self] at h'
    cases h'
    exact hs
  · rw [GoMap.get_set_ne _ _ _ _ hc] at h'
    exact h c' s' h'

/-- C9, as stated, fails: `RemoveTrait` with the trait kind `type` deletes the
`type` key, and `SetTrait` on a component that is not in the application
creates a document that holds the trait only. -/
theorem type_key_lost :
    typedApp (some demoApp) ∧
    (RemoveTrait (some demoApp) "web" "type").2 = none ∧
    componentKey (RemoveTrait (some demoApp) "web" "type").1 "web" "type" = none ∧
    ¬ typedApp (RemoveTrait (some demoApp) "web" "type").1 ∧
    (SetTrait validateOk (some demoApp) "db" "route" []).map
      (fun r => (component r.1 "db", r.2)) = some (some [("route", Value.map [])], none) ∧
    (∀ r, SetTrait validateOk (some demoApp) "db" "route" [] = some r → ¬ typedApp r.1) := by
  refine ⟨typedApp_demoApp, rfl, rfl, ?_, rfl, ?_⟩
  · intro h
    have := h "web" _ rfl
    exact absurd this (by decide)
  · intro r hr h
    have hr2 : some r = some _ := hr.symm.trans rfl
    cases hr2
    have := h "db" _ rfl
    exact absurd this (by decide)

theorem typedApp_SetWorkload (Validate : Application → Option String) (a : Application)
    (c wt : String) (d : GoMap Value) (h : typedApp (some a)) :
    typedApp (SetWorkload Validate (some a) c wt d).1 := by
  simp only [SetWorkload]
  apply typedApp_set a c _ h
  apply GoMap.get_merge_isSome
  simp [GoMap.get_set_self]

theorem typedApp_RemoveComponent (a : Application) (c : String) (h : typedApp (some a)) :
    typedApp (RemoveComponent (some a) c).1 := by
  intro c' s' h'
  simp only [RemoveComponent, component] at h'
  by_cases hc : c' = c
  · subst hc
    rw [GoMap.get_delete_self] at h'
    exact absurd h' (by simp)
  · rw [GoMap.get_delete_ne _ _ _ hc] at h'
    exact h c' s' h'

theorem typedApp_RemoveTrait (a : Application) (c t : String) (ht : t ≠ "type")
    (h : typedApp (some a)) : typedApp (RemoveTrait (some a) c t).1 := by
  simp only [RemoveTrait]
  cases hg : GoMap.get a.Services c with
  | none => exact h
  | some s =>
    apply typedApp_set a c _ h
    rw [GoMap.get_delete_ne _ _ _ (fun e => ht e.symm)]
    exact h c s hg

theorem typedApp_SetTrait (Validate : Application → Option String) (a : Application)
    (c t : String) (d : GoMap Value) (hc : (component (some a) c).isSome = true)
    (h : typedApp (some a)) (r : Option Application × Option String)
    (hr : SetTrait Validate (some a) c t d = some r) : typedApp r.1 := by
  obtain ⟨m, hm⟩ := SetTrait_shape Validate a c t d r hr
  subst hm
  apply typedApp_set a c _ h
  simp only [component] at hc
  cases hg : GoMap.get a.Services c with
  | none => rw [hg] at hc; exact absurd hc (by simp)
  | some s =>
    simp only
    by_cases ht : t = "type"
    · subst ht; simp [GoMap.get_set_self]
    · rw [GoMap.get_set_ne _ _ _ _ (fun e => ht e.symm)]
      exact h c s hg

/-- C9, amended: if every component document of a non-nil app has a `type` key,
then every component document present still has one after `SetWorkload` and
after `RemoveComponent` (any arguments), after `RemoveTrait` with a trait kind
other than `type`, and after every `SetTrait` that returns on a component
already present in the app; such a `SetTrait` returns whenever the component's
entry for the trait kind is absent or a map. -/
theorem type_key_preserved (Validate : Application → Option String) (a : Application)
    (h : typedApp (some a)) :
    (∀ c wt d, typedApp (SetWorkload Validate (some a) c wt d).1) ∧
    (∀ c, typedApp (RemoveComponent (some a) c).1) ∧
    (∀ c t, t ≠ "type" → typedApp (RemoveTrait (some a) c t).1) ∧
    (∀ c t d, (component (some a) c).isSome = true →
      ∀ r, SetTrait Validate (some a) c t d = some r → typedApp r.1) ∧
    (∀ c t d, (componentKey (some a) c t = none ∨
        ∃ m, componentKey (some a) c t = some (Value.map m)) →
      (SetTrait Validate (some a) c t d).isSome = true) := by
  refine ⟨?_, ?_, ?_, ?_, ?_⟩
  · intro c wt d
    exact typedApp_SetWorkload Validate a c wt d h
  · intro c
    exact typedApp_RemoveComponent a c h
  · intro c t ht
    exact typedApp_RemoveTrait a c t ht h
  · intro c t d hc r hr
    exact typedApp_SetTrait Validate a c t d hc h r hr
  · intro c t d hslot
    obtain ⟨m, hm⟩ := SetTrait_of_slot a c t d hslot
    rw [hm Validate]
    rfl

/-- C9 (amended), at the demo application: a second `route` on `web`, and the
removal of that trait. -/
theorem type_key_preserved_witness :
    (∃ r, SetTrait validateOk (some demoApp) "web" "route"
        [("domain", Value.str "b.example.com")] = some r ∧ typedApp r.1) ∧
    typedApp (RemoveTrait (some demoApp) "web" "route").1 :=
  ⟨⟨_, rfl, (type_key_preserved validateOk demoApp typedApp_demoApp).2.2.2.1 "web" "route"
      [("domain", Value.str "b.example.com")] rfl _ rfl⟩,
   (type_key_preserved validateOk demoApp typedApp_demoApp).2.2.1 "web" "route"
      (by decide)⟩

/-! ## Binding and removing a trait -/

/-- C10, as stated, fails: the component `web` carries a `route` trait before
the bind; after `SetTrait` and `RemoveTrait` for `route` the key `route`, which
is not the key `type`, is gone instead of holding its pre-bind value. -/
theorem SetTrait_RemoveTrait_not_restored :
    componentKey (some demoApp) "web" "route" =
      some (Value.map [("domain", Value.str "a.example.com")]) ∧
    (SetTrait validateOk (some demoApp) "web" "route"
        [("domain", Value.str "b.example.com")]).map
      (fun r => (componentKey (RemoveTrait r.1 "web" "route").1 "web" "route", r.2)) =
      some (none, none) ∧
    "route" ≠ "type" :=
  ⟨rfl, rfl, by decide⟩

/-- C10, amended: when the component's entry for the trait kind `t` is absent or
a map, `SetTrait` returns, and `RemoveTrait` for the same component and trait
kind after it returns no error and leaves the component document equal to its
pre-bind value on every key other than `t`, with no entry for `t`; so every key
is restored when the component had no entry for `t` before the bind. -/
theorem SetTrait_RemoveTrait (Validate : Application → Option String) (a : Application)
    (c t : String) (d : GoMap Value)
    (hslot : componentKey (some a) c t = none ∨
      ∃ m, componentKey (some a) c t = some (Value.map m)) :
    ∃ a1, SetTrait Validate (some a) c t d = some (some a1, Validate a1) ∧
      (RemoveTrait (some a1) c t).2 = none ∧
      (∀ k, k ≠ t →
        componentKey (RemoveTrait (some a1) c t).1 c k = componentKey (some a) c k) ∧
      componentKey (RemoveTrait (some a1) c t).1 c t = none ∧
      (componentKey (some a) c t = none → ∀ k,
        componentKey (RemoveTrait (some a1) c t).1 c k = componentKey (some a) c k) := by
  obtain ⟨m, hm⟩ := SetTrait_of_slot a c t d hslot
  have hrem : ∀ k, componentKey (RemoveTrait (some ⟨a.Name, GoMap.set a.Services c
        (GoMap.set (match GoMap.get a.Services c with
          | some s => s
          | none => []) t (Value.map m))⟩) c t).1 c k =
      GoMap.get (GoMap.delete (GoMap.set (match GoMap.get a.Services c with
          | some s => s
          | none => ([] : Service)) t (Value.map m)) t) k := by
    intro k
    simp only [RemoveTrait, GoMap.get_set_self, componentKey, component]
  have hne : ∀ k, k ≠ t →
      componentKey (RemoveTrait (some ⟨a.Name, GoMap.set a.Services c
        (GoMap.set (match GoMap.get a.Services c with
          | some s => s
          | none => []) t (Value.map m))⟩) c t).1 c k = componentKey (some a) c k := by
    intro k hk
    rw [hrem, GoMap.get_delete_ne _ _ _ hk, GoMap.get_set_ne _ _ _ _ hk, componentKey_old]
  have hself : componentKey (RemoveTrait (some ⟨a.Name, GoMap.set a.Services c
        (GoMap.set (match GoMap.get a.Services c with
          | some s => s
          | none => []) t (Value.map m))⟩) c t).1 c t = none := by
    rw [hrem, GoMap.get_delete_self]
  refine ⟨_, hm Validate, ?_, hne, hself, ?_⟩
  · simp only [RemoveTrait, GoMap.get_set_self]
  · intro hnone k
    by_cases hk : k = t
    · subst hk
      rw [hself, hnone]
    · exact hne k hk

/-- C10 (amended), at a new `cron` trait on the component `job`. -/
theorem SetTrait_RemoveTrait_witness :
    ∃ a1, SetTrait validateOk (some demoApp) "job" "cron"
        [("schedule", Value.str "@daily")] = some (some a1, validateOk a1) ∧
      (RemoveTrait (some a1) "job" "cron").2 = none ∧
      (∀ k, k ≠ "cron" →
        componentKey (RemoveTrait (some a1) "job" "cron").1 "job" k =
          componentKey (some demoApp) "job" k) ∧
      componentKey (RemoveTrait (some a1) "job" "cron").1 "job" "cron" = none ∧
      (componentKey (some demoApp) "job" "cron" = none → ∀ k,
        componentKey (RemoveTrait (some a1) "job" "cron").1 "job" k =
          componentKey (some demoApp) "job" k) :=
  SetTrait_RemoveTrait validateOk demoApp "job" "cron"
    [("schedule", Value.str "@daily")] (Or.inl rfl)

/-! ## Removing a trait or a component -/

namespace GoMap

theorem set_of_get {β : Type} (m : GoMap β) (k : String) (v : β) (h : get m k = some v) :
    set m k v = m := by
  induction m with
  | nil => simp [get] at h
  | cons kv m ih =>
    obtain ⟨k0, v0⟩ := kv
    by_cases h0 : k0 = k
    · subst h0
      simp only [get, if_true, Option.some.injEq] at h
      simp [set, h]
    · simp only [get, h0, if_false] at h
      simp [set, h0, ih h]

theorem delete_of_get_none {β : Type} (m : GoMap β) (k : String) (h : get m k = none) :
    delete m k = m := by
  induction m with
  | nil => rfl
  | cons kv m ih =>
    obtain ⟨k0, v0⟩ := kv
    by_cases h0 : k0 = k
    · simp [get, h0] at h
    · simp only [get, h0, if_false] at h
      have := ih h
      simp only [delete] at this ⊢
      rw [List.filter_cons]
      simp only [ne_eq, h0, not_false_eq_true, decide_True, if_true]
      rw [this]

theorem delete_delete {β : Type} (m : GoMap β) (k : String) :
    delete (delete m k) k = delete m k := by
  simp [delete, List.filter_filter]

end GoMap

/-- C11: on a non-nil app `RemoveTrait` and `RemoveComponent` return no error
whether or not the key is there (neither has a validation step), leave the app
as it is when the trait key, the component of the trait or the component to
remove is absent, and give the same app when applied twice as when applied
once. -/
theorem Remove_idempotent (a : Application) :
    (∀ c t, (RemoveTrait (some a) c t).2 = none) ∧
    (∀ c, (RemoveComponent (some a) c).2 = none) ∧
    (∀ c t, componentKey (some a) c t = none → RemoveTrait (some a) c t = (some a, none)) ∧
    (∀ c, component (some a) c = none → RemoveComponent (some a) c = (some a, none)) ∧
    (∀ c t, RemoveTrait (RemoveTrait (some a) c t).1 c t = RemoveTrait (some a) c t) ∧
    (∀ c, RemoveComponent (RemoveComponent (some a) c).1 c = RemoveComponent (some a) c) := by
  refine ⟨?_, ?_, ?_, ?_, ?_, ?_⟩
  · intro c t
    simp only [RemoveTrait]
    cases GoMap.get a.Services c <;> rfl
  · intro c
    rfl
  · intro c t h
    simp only [componentKey, component] at h
    simp only [RemoveTrait]
    cases hg : GoMap.get a.Services c with
    | none => rfl
    | some s =>
      rw [hg] at h
      simp only at h ⊢
      rw [GoMap.delete_of_get_none s t h, GoMap.set_of_get _ _ _ hg]
  · intro c h
    simp only [component] at h
    simp only [RemoveComponent]
    rw [GoMap.delete_of_get_none _ _ h]
  · intro c t
    simp only [RemoveTrait]
    cases hg : GoMap.get a.Services c with
    | none => simp only [hg]
    | some s =>
      simp only [GoMap.get_set_self, GoMap.delete_delete]
      rw [GoMap.set_of_get _ _ _ (GoMap.get_set_self _ _ _)]
  · intro c
    simp only [RemoveComponent, GoMap.delete_delete]

/-- C11, at the demo application: a trait that is not bound and a component
that does not exist. -/
theorem Remove_idempotent_witness :
    RemoveTrait (some demoApp) "job" "route" = (some demoApp, none) ∧
    RemoveComponent (some demoApp) "db" = (some demoApp, none) :=
  ⟨(Remove_idempotent demoApp).2.2.1 "job" "route" rfl,
   (Remove_idempotent demoApp).2.2.2.1 "db" rfl⟩

/-! ## Binding parameters -/

theorem completeParams_append {F : Type} (lib : CliLib F) (fs : F) (ps1 ps2 : List Parameter) :
    ∀ data : GoMap Value,
      completeParams lib fs data (ps1 ++ ps2) =
        match completeParams lib fs data ps1 with
        | .error e => .error e
        | .ok d => completeParams lib fs d ps2 := by
  induction ps1 with
  | nil => intro data; rfl
  | cons v ps1 ih =>
    intro data
    simp only [List.cons_append, completeParams]
    cases completeParam lib fs data v with
    | error e => rfl
    | ok d => exact ih d

theorem completeParam_required {F : Type} (lib : CliLib F) (fs : F) (data : GoMap Value)
    (v : Parameter) (hreq : v.Required = true) (hname : flagName v ≠ "name")
    (hval : lib.Lookup fs (flagName v) = none ∨ lib.Lookup fs (flagName v) = some "") :
    completeParam lib fs data v =
      .error ("required flag(s) \"" ++ flagName v ++ "\" not set") := by
  simp only [completeParam, hname, if_false, hval, if_true, hreq]

theorem BaseComplete_of_loaded {F : Type} (D : AppDeps) (lib : CliLib F)
    (envName workloadName appName : String) (flagSet : F) (workloadType : String)
    (app : Option Application) (tp0 : String) (data : GoMap Value) (template : Capability)
    (hload : LoadIfExist D envName workloadName appName = some (app, none))
    (hget : D.GetWorkload app workloadName = (tp0, data))
    (htp : ¬ (tp0 = "" ∧ workloadType = ""))
    (htemplate :
      D.LoadCapabilityByName (if tp0 = "" then workloadType else tp0) = (template, none)) :
    BaseComplete D lib envName workloadName appName flagSet workloadType =
      match completeParams lib flagSet data template.Parameters with
      | .error e => some ⟨none, some e, []⟩
      | .ok d =>
        match SetWorkload D.Validate app workloadName
          (if tp0 = "" then workloadType else tp0) d with
        | (app1, some err) =>
          some ⟨app1, some err,
            [Call.setWorkload workloadName (if tp0 = "" then workloadType else tp0) d]⟩
        | (app1, none) =>
          some ⟨app1, D.Save app1 envName,
            [Call.setWorkload workloadName (if tp0 = "" then workloadType else tp0) d,
              Call.save app1 envName]⟩ := by
  simp only [BaseComplete, hload, hget, htp, if_false, htemplate]

theorem BaseComplete_of_loop_error {F : Type} (D : AppDeps) (lib : CliLib F)
    (envName workloadName appName : String) (flagSet : F) (workloadType : String)
    (app : Option Application) (tp0 : String) (data : GoMap Value) (template : Capability)
    (e : String)
    (hload : LoadIfExist D envName workloadName appName = some (app, none))
    (hget : D.GetWorkload app workloadName = (tp0, data))
    (htp : ¬ (tp0 = "" ∧ workloadType = ""))
    (htemplate :
      D.LoadCapabilityByName (if tp0 = "" then workloadType else tp0) = (template, none))
    (hloop : completeParams lib flagSet data template.Parameters = .error e) :
    BaseComplete D lib envName workloadName appName flagSet workloadType =
      some ⟨none, some e, []⟩ := by
  rw [BaseComplete_of_loaded D lib envName workloadName appName flagSet workloadType
    app tp0 data template hload hget htp htemplate, hloop]

/-- C12, as stated, fails: a required parameter whose flag name is `name` is
skipped by the loop before the required check, so the call goes through to
`SetWorkload` and `Save` without a value for it; and a parameter that fails
earlier in the list gives its own error instead of the required-flag error. -/
theorem BaseComplete_required_unchecked :
    (BaseComplete (sampleDeps [namedWorkload]) stringFlags "dev" "web" "shop" []
        "webservice").map (fun o => (o.err, o.calls.length)) = some (none, 2) ∧
    (BaseComplete (sampleDeps [scaledWorkload]) stringFlags "dev" "web" "shop"
        [("p", "abc")] "webservice").map (fun o => (o.err, o.calls.length)) =
      some (some
        "get flag(s) \"port\" err strconv.ParseInt: parsing \"abc\": invalid syntax", 0) :=
  ⟨rfl, rfl⟩

/-- C12, amended: once the template is loaded, if a parameter whose flag name
is not `name` is required and its flag is absent or empty, `BaseComplete`
returns an error without calling `SetWorkload` or `Save`; the error is the
required-flag error of that parameter when the parameters before it in the list
are processed without error. -/
theorem BaseComplete_required {F : Type} (D : AppDeps) (lib : CliLib F)
    (envName workloadName appName : String) (flagSet : F) (workloadType : String)
    (app : Option Application) (tp0 : String) (data : GoMap Value) (template : Capability)
    (ps1 ps2 : List Parameter) (v : Parameter)
    (hload : LoadIfExist D envName workloadName appName = some (app, none))
    (hget : D.GetWorkload app workloadName = (tp0, data))
    (htp : ¬ (tp0 = "" ∧ workloadType = ""))
    (htemplate :
      D.LoadCapabilityByName (if tp0 = "" then workloadType else tp0) = (template, none))
    (hps : template.Parameters = ps1 ++ v :: ps2)
    (hreq : v.Required = true) (hname : flagName v ≠ "name")
    (hval : lib.Lookup flagSet (flagName v) = none ∨
      lib.Lookup flagSet (flagName v) = some "") :
    (∃ e, BaseComplete D lib envName workloadName appName flagSet workloadType =
      some ⟨none, some e, []⟩) ∧
    (∀ d, completeParams lib flagSet data ps1 = .ok d →
      BaseComplete D lib envName workloadName appName flagSet workloadType =
        some ⟨none, some ("required flag(s) \"" ++ flagName v ++ "\" not set"), []⟩) := by
  have hloop : ∀ d, completeParams lib flagSet data ps1 = .ok d →
      completeParams lib flagSet data template.Parameters =
        .error ("required flag(s) \"" ++ flagName v ++ "\" not set") := by
    intro d hd
    rw [hps, completeParams_append, hd]
    simp only [completeParams, completeParam_required lib flagSet d v hreq hname hval]
  constructor
  · cases h1 : completeParams lib flagSet data ps1 with
    | error e =>
      refine ⟨e, BaseComplete_of_loop_error D lib envName workloadName appName flagSet
        workloadType app tp0 data template e hload hget htp htemplate ?_⟩
      rw [hps, completeParams_append, h1]
    | ok d =>
      exact ⟨_, BaseComplete_of_loop_error D lib envName workloadName appName flagSet
        workloadType app tp0 data template _ hload hget htp htemplate (hloop d h1)⟩
  · intro d hd
    exact BaseComplete_of_loop_error D lib envName workloadName appName flagSet
      workloadType app tp0 data template _ hload hget htp htemplate (hloop d hd)

/-- C12 (amended), at the parameter `replicas` of kind int, required, with no
flag of that name. -/
theorem BaseComplete_required_witness :
    BaseComplete (sampleDeps [scaledWorkload]) stringFlags "dev" "web" "shop"
        [("p", "80")] "webservice" =
      some ⟨none, some "required flag(s) \"replicas\" not set", []⟩ :=
  (BaseComplete_required (sampleDeps [scaledWorkload]) stringFlags "dev" "web" "shop"
    [("p", "80")] "webservice" (some { emptyApp with Name := "shop" }) "" []
    scaledWorkload
    [{ Name := "port", Alias := "p", Required := false, Type_ := Kind.IntKind }] []
    { Name := "replicas", Alias := "", Required := true, Type_ := Kind.IntKind }
    rfl rfl (by decide) rfl rfl rfl (by decide) (Or.inl rfl)).2 _ rfl

/-! ## The string fallback -/

theorem GoMap.set_set {β : Type} (m : GoMap β) (k : String) (a b : β) :
    GoMap.set (GoMap.set m k a) k b = GoMap.set m k b := by
  induction m with
  | nil => simp [GoMap.set]
  | cons kv m ih =>
    obtain ⟨k0, v0⟩ := kv
    by_cases h0 : k0 = k
    · simp [GoMap.set, h0]
    · simp [GoMap.set, h0, ih]

theorem completeParam_fallback {F : Type} (lib : CliLib F) (fs : F) (data : GoMap Value)
    (v : Parameter) (e : String)
    (hname : flagName v ≠ "name")
    (hflag : ∃ t, lib.Lookup fs (flagName v) = some t ∧ t ≠ "")
    (hdirect : ∃ val0, getTyped lib fs (flagName v) v.Type_ = some (val0, some e))
    (hmis : Contains e "of flag of type string" = true) :
    completeParam lib fs data v =
      match parseTyped lib (lib.GetString fs (flagName v)).1 v.Type_ with
      | none =>
        .error ("should not get string from type(" ++ v.Type_.String ++
          ") for parameter \"" ++ flagName v ++ "\"")
      | some (val, none) => .ok (GoMap.set data v.Name val)
      | some (_, some e1) => .error ("get flag(s) \"" ++ v.Name ++ "\" err " ++ e1) := by
  obtain ⟨t, ht, hne⟩ := hflag
  obtain ⟨val0, hd⟩ := hdirect
  have hnot : ¬ (lib.Lookup fs (flagName v) = none ∨ lib.Lookup fs (flagName v) = some "") := by
    rw [ht]
    simp [hne]
  simp only [completeParam, hname, if_false, hnot, hd, hmis, if_true]
  cases parseTyped lib (lib.GetString fs (flagName v)).1 v.Type_ with
  | none => rfl
  | some r =>
    obtain ⟨val, err⟩ := r
    cases err with
    | none => simp only [GoMap.set_set]
    | some e1 => rfl

/-- C13: in `BaseComplete`, for a parameter whose direct typed retrieval fails
with the mismatch `of flag of type string`, the text of the flag is parsed with
`ParseBool` for a bool, `ParseInt` in base 10 for an int and `ParseFloat` for a
number or float, and the parsed value is stored under the parameter's name; the
text `true` gives the boolean `true`; and a text that does not parse makes the
call return an error without `SetWorkload` or `Save`. -/
theorem BaseComplete_string_fallback {F : Type} (lib : CliLib F) (fs : F) (v : Parameter)
    (raw e : String)
    (hname : flagName v ≠ "name")
    (hflag : ∃ t, lib.Lookup fs (flagName v) = some t ∧ t ≠ "")
    (hdirect : ∃ val0, getTyped lib fs (flagName v) v.Type_ = some (val0, some e))
    (hmis : Contains e "of flag of type string" = true)
    (hraw : (lib.GetString fs (flagName v)).1 = raw) :
    (v.Type_ = Kind.BoolKind → ∀ data, completeParam lib fs data v =
      match ParseBool raw with
      | (b, none) => .ok (GoMap.set data v.Name (Value.bool b))
      | (_, some e1) => .error ("get flag(s) \"" ++ v.Name ++ "\" err " ++ e1)) ∧
    (v.Type_ = Kind.IntKind → ∀ data, completeParam lib fs data v =
      match ParseInt raw with
      | (n, none) => .ok (GoMap.set data v.Name (Value.int n))
      | (_, some e1) => .error ("get flag(s) \"" ++ v.Name ++ "\" err " ++ e1)) ∧
    (v.Type_ = Kind.NumberKind ∨ v.Type_ = Kind.FloatKind →
      ∀ data, completeParam lib fs data v =
        match lib.ParseFloat raw with
        | (x, none) => .ok (GoMap.set data v.Name (Value.float x))
        | (_, some e1) => .error ("get flag(s) \"" ++ v.Name ++ "\" err " ++ e1)) ∧
    (v.Type_ = Kind.BoolKind → raw = "true" → ∀ data,
      completeParam lib fs data v = .ok (GoMap.set data v.Name (Value.bool true))) ∧
    (∀ (D : AppDeps) (envName workloadName appName workloadType : String)
      (app : Option Application) (tp0 : String) (data d : GoMap Value)
      (template : Capability) (ps1 ps2 : List Parameter) (e1 : String),
      LoadIfExist D envName workloadName appName = some (app, none) →
      D.GetWorkload app workloadName = (tp0, data) →
      ¬ (tp0 = "" ∧ workloadType = "") →
      D.LoadCapabilityByName (if tp0 = "" then workloadType else tp0) = (template, none) →
      template.Parameters = ps1 ++ v :: ps2 →
      completeParams lib fs data ps1 = .ok d →
      ((v.Type_ = Kind.BoolKind ∧ (ParseBool raw).2 = some e1) ∨
        (v.Type_ = Kind.IntKind ∧ (ParseInt raw).2 = some e1) ∨
        ((v.Type_ = Kind.NumberKind ∨ v.Type_ = Kind.FloatKind) ∧
          (lib.ParseFloat raw).2 = some e1)) →
      BaseComplete D lib envName workloadName appName fs workloadType =
        some ⟨none, some ("get flag(s) \"" ++ v.Name ++ "\" err " ++ e1), []⟩) := by
  have hstep := fun data => completeParam_fallback lib fs data v e hname hflag hdirect hmis
  rw [hraw] at hstep
  refine ⟨?_, ?_, ?_, ?_, ?_⟩
  · intro hk data
    rw [hstep data, hk]
    simp only [parseTyped]
    cases ParseBool raw with
    | mk b err => cases err <;> rfl
  · intro hk data
    rw [hstep data, hk]
    simp only [parseTyped]
    cases ParseInt raw with
    | mk b err => cases err <;> rfl
  · intro hk data
    rw [hstep data]
    rcases hk with hk | hk <;> rw [hk] <;> simp only [parseTyped] <;>
      cases lib.ParseFloat raw with
      | mk b err => cases err <;> rfl
  · intro hk htrue data
    rw [hstep data, hk, htrue]
    rfl
  · intro D envName workloadName appName workloadType app tp0 data d template ps1 ps2 e1
      hload hget htp htemplate hps hd hparse
    apply BaseComplete_of_loop_error D lib envName workloadName appName fs workloadType
      app tp0 data template _ hload hget htp htemplate
    rw [hps, completeParams_append, hd]
    simp only [completeParams, hstep d]
    rcases hparse with ⟨hk, he⟩ | ⟨hk, he⟩ | ⟨hk | hk, he⟩ <;> rw [hk] <;>
      simp only [parseTyped, he]

/-- C13, at a parameter `debug` of kind bool whose flag is a string flag holding
`true`. -/
theorem BaseComplete_string_fallback_witness :
    completeParam stringFlags [("debug", "true")] []
        { Name := "debug", Alias := "", Required := false, Type_ := Kind.BoolKind } =
      .ok [("debug", Value.bool true)] :=
  (BaseComplete_string_fallback stringFlags [("debug", "true")]
    { Name := "debug", Alias := "", Required := false, Type_ := Kind.BoolKind }
    "true" "trying to get bool value of flag of type string"
    (by decide) ⟨"true", rfl, by decide⟩ ⟨Value.bool false, rfl⟩ (by decide) rfl).2.2.2.1
    rfl rfl []

/-- C14 at a failing input: the trait parameter `replica` of kind int with a
string flag holding `3`. `AddOrUpdateTrait` returns the mismatch error of the
direct retrieval and calls neither `SetTrait` nor `Save`, while the loop of
`BaseComplete` binds the integer 3 for the same parameter and flag. -/
theorem AddOrUpdateTrait_no_fallback :
    AddOrUpdateTrait (sampleDeps []) stringFlags devEnv "demo" "web" [("replica", "3")]
        scaler =
      some (⟨none,
        some "get flag(s) \"replica\" err trying to get int64 value of flag of type string",
        []⟩, [("replica", "3")], devEnv) ∧
    completeParams stringFlags [("replica", "3")] [] scaler.Parameters =
      .ok [("replica", Value.int 3)] :=
  ⟨rfl, rfl⟩

/-! ## Flag names and data keys -/

theorem getTyped_congr {F : Type} (lib : CliLib F) (fs fs1 : F) (n : String) (k : Kind)
    (hI : lib.GetInt64 fs1 n = lib.GetInt64 fs n)
    (hS : lib.GetString fs1 n = lib.GetString fs n)
    (hB : lib.GetBool fs1 n = lib.GetBool fs n)
    (hF : lib.GetFloat64 fs1 n = lib.GetFloat64 fs n) :
    getTyped lib fs1 n k = getTyped lib fs n k := by
  cases k <;> simp only [getTyped, hI, hS, hB, hF]

theorem completeParam_keys {F : Type} (lib : CliLib F) (fs : F) (data d : GoMap Value)
    (v : Parameter) (h : completeParam lib fs data v = .ok d) (k : String)
    (hk : k ≠ v.Name) : GoMap.get d k = GoMap.get data k := by
  simp only [completeParam] at h
  split at h
  · cases h; rfl
  · split at h
    · split at h
      · cases h
      · cases h; rfl
    · split at h
      · cases h; rfl
      · cases h
        exact GoMap.get_set_ne _ _ _ _ hk
      · split at h
        · split at h
          · cases h
          · cases h
            rw [GoMap.get_set_ne _ _ _ _ hk, GoMap.get_set_ne _ _ _ _ hk]
          · cases h
        · cases h

theorem traitParam_keys {F : Type} (lib : CliLib F) (fs : F) (data d : GoMap Value)
    (v : Parameter) (h : traitParam lib fs data v = .ok d) (k : String)
    (hk : k ≠ v.Name) : GoMap.get d k = GoMap.get data k := by
  simp only [traitParam] at h
  split at h
  · cases h; rfl
  · cases h
    exact GoMap.get_set_ne _ _ _ _ hk
  · cases h

theorem completeParams_keys {F : Type} (lib : CliLib F) (fs : F) (ps : List Parameter) :
    ∀ data d : GoMap Value, completeParams lib fs data ps = .ok d →
      ∀ k, (∀ p ∈ ps, p.Name ≠ k) → GoMap.get d k = GoMap.get data k := by
  induction ps with
  | nil =>
    intro data d h k _
    simp only [completeParams] at h
    cases h
    rfl
  | cons v ps ih =>
    intro data d h k hk
    simp only [completeParams] at h
    cases h1 : completeParam lib fs data v with
    | error e => rw [h1] at h; cases h
    | ok d1 =>
      rw [h1] at h
      rw [ih d1 d h k (fun p hp => hk p (List.mem_cons_of_mem _ hp))]
      exact completeParam_keys lib fs data d1 v h1 k
        (fun e => hk v (List.mem_cons_self _ _) e.symm)

theorem traitParams_keys {F : Type} (lib : CliLib F) (fs : F) (ps : List Parameter) :
    ∀ data d : GoMap Value, traitParams lib fs data ps = .ok d →
      ∀ k, (∀ p ∈ ps, p.Name ≠ k) → GoMap.get d k = GoMap.get data k := by
  induction ps with
  | nil =>
    intro data d h k _
    simp only [traitParams] at h
    cases h
    rfl
  | cons v ps ih =>
    intro data d h k hk
    simp only [traitParams] at h
    cases h1 : traitParam lib fs data v with
    | error e => rw [h1] at h; cases h
    | ok d1 =>
      rw [h1] at h
      rw [ih d1 d h k (fun p hp => hk p (List.mem_cons_of_mem _ hp))]
      exact traitParam_keys lib fs data d1 v h1 k
        (fun e => hk v (List.mem_cons_self _ _) e.symm)

/-- C15: the flag name of a parameter is its alias when the alias is not empty
and its name otherwise; a value retrieved for a parameter of a supported kind
is the one of the flag of that name and is written under the parameter's name,
in `AddOrUpdateTrait` and (for a flag with a text, not called `name`) in
`BaseComplete`; an iteration of either loop changes no other key of the data
than the parameter's name, so never the alias, and reads no other flag; and a
key that is the name of no parameter is left as it was by either loop. -/
theorem bind_by_flagName {F : Type} (lib : CliLib F) (fs : F) (v : Parameter) :
    ((v.Alias ≠ "" → flagName v = v.Alias) ∧ (v.Alias = "" → flagName v = v.Name)) ∧
    (∀ data val, getTyped lib fs (flagName v) v.Type_ = some (val, none) →
      traitParam lib fs data v = .ok (GoMap.set data v.Name val) ∧
      (flagName v ≠ "name" → (∃ t, lib.Lookup fs (flagName v) = some t ∧ t ≠ "") →
        completeParam lib fs data v = .ok (GoMap.set data v.Name val))) ∧
    (∀ data d, completeParam lib fs data v = .ok d →
      ∀ k, k ≠ v.Name → GoMap.get d k = GoMap.get data k) ∧
    (∀ data d, traitParam lib fs data v = .ok d →
      ∀ k, k ≠ v.Name → GoMap.get d k = GoMap.get data k) ∧
    (∀ fs1 data,
      lib.Lookup fs1 (flagName v) = lib.Lookup fs (flagName v) →
      lib.GetInt64 fs1 (flagName v) = lib.GetInt64 fs (flagName v) →
      lib.GetString fs1 (flagName v) = lib.GetString fs (flagName v) →
      lib.GetBool fs1 (flagName v) = lib.GetBool fs (flagName v) →
      lib.GetFloat64 fs1 (flagName v) = lib.GetFloat64 fs (flagName v) →
      completeParam lib fs1 data v = completeParam lib fs data v ∧
      traitParam lib fs1 data v = traitParam lib fs data v) ∧
    (∀ ps data d, completeParams lib fs data ps = .ok d →
      ∀ k, (∀ p ∈ ps, p.Name ≠ k) → GoMap.get d k = GoMap.get data k) ∧
    (∀ ps data d, traitParams lib fs data ps = .ok d →
      ∀ k, (∀ p ∈ ps, p.Name ≠ k) → GoMap.get d k = GoMap.get data k) := by
  refine ⟨⟨?_, ?_⟩, ?_, ?_, ?_, ?_, ?_, ?_⟩
  · intro h; simp [flagName, h]
  · intro h; simp [flagName, h]
  · intro data val hval
    refine ⟨by simp only [traitParam, hval], ?_⟩
    intro hname hflag
    obtain ⟨t, ht, hne⟩ := hflag
    have hnot :
        ¬ (lib.Lookup fs (flagName v) = none ∨ lib.Lookup fs (flagName v) = some "") := by
      rw [ht]
      simp [hne]
    simp only [completeParam, hname, if_false, hnot, hval]
  · intro data d h k hk
    exact completeParam_keys lib fs data d v h k hk
  · intro data d h k hk
    exact traitParam_keys lib fs data d v h k hk
  · intro fs1 data hL hI hS hB hF
    have hg := getTyped_congr lib fs fs1 (flagName v) v.Type_ hI hS hB hF
    constructor
    · simp only [completeParam, hL, hg, hS]
    · simp only [traitParam, hg]
  · intro ps
    exact completeParams_keys lib fs ps
  · intro ps
    exact traitParams_keys lib fs ps

/-- C15, at a parameter `image` with the alias `i`: the value comes from the
flag `i` and is stored under `image`. -/
theorem bind_by_flagName_witness :
    flagName { Name := "image", Alias := "i", Required := true, Type_ := Kind.StringKind } =
      "i" ∧
    completeParam stringFlags [("i", "nginx"), ("image", "busybox")] []
        { Name := "image", Alias := "i", Required := true, Type_ := Kind.StringKind } =
      .ok [("image", Value.str "nginx")] :=
  ⟨(bind_by_flagName stringFlags [("i", "nginx"), ("image", "busybox")]
      { Name := "image", Alias := "i", Required := true, Type_ := Kind.StringKind }).1.1
      (by decide),
   ((bind_by_flagName stringFlags [("i", "nginx"), ("image", "busybox")]
      { Name := "image", Alias := "i", Required := true, Type_ := Kind.StringKind }).2.1
      [] (Value.str "nginx") rfl).2 (by decide) ⟨"nginx", rfl, by decide⟩⟩

/-! ## Parameters of an unsupported kind -/

theorem traitParams_append {F : Type} (lib : CliLib F) (fs : F) (ps1 ps2 : List Parameter) :
    ∀ data : GoMap Value,
      traitParams lib fs data (ps1 ++ ps2) =
        match traitParams lib fs data ps1 with
        | .error e => .error e
        | .ok d => traitParams lib fs d ps2 := by
  induction ps1 with
  | nil => intro data; rfl
  | cons v ps1 ih =>
    intro data
    simp only [List.cons_append, traitParams]
    cases traitParam lib fs data v with
    | error e => rfl
    | ok d => exact ih d

theorem completeParams_filter {F : Type} (lib : CliLib F) (fs : F) (v : Parameter)
    (hskip : ∀ data, completeParam lib fs data v = .ok data) (ps : List Parameter) :
    ∀ data : GoMap Value,
      completeParams lib fs data (ps.filter fun p => decide (p ≠ v)) =
        completeParams lib fs data ps := by
  induction ps with
  | nil => intro data; rfl
  | cons p ps ih =>
    intro data
    by_cases hp : p = v
    · subst hp
      simp only [List.filter_cons, ne_eq, not_true_eq_false, decide_False,
        Bool.false_eq_true, if_false, completeParams, hskip data]
      exact ih data
    · simp only [List.filter_cons, ne_eq, hp, not_false_eq_true, decide_True, if_true,
        completeParams]
      cases completeParam lib fs data p with
      | error e => rfl
      | ok d => exact ih d

theorem traitParams_filter {F : Type} (lib : CliLib F) (fs : F) (v : Parameter)
    (hskip : ∀ data, traitParam lib fs data v = .ok data) (ps : List Parameter) :
    ∀ data : GoMap Value,
      traitParams lib fs data (ps.filter fun p => decide (p ≠ v)) =
        traitParams lib fs data ps := by
  induction ps with
  | nil => intro data; rfl
  | cons p ps ih =>
    intro data
    by_cases hp : p = v
    · subst hp
      simp only [List.filter_cons, ne_eq, not_true_eq_false, decide_False,
        Bool.false_eq_true, if_false, traitParams, hskip data]
      exact ih data
    · simp only [List.filter_cons, ne_eq, hp, not_false_eq_true, decide_True, if_true,
        traitParams]
      cases traitParam lib fs data p with
      | error e => rfl
      | ok d => exact ih d

theorem getTyped_unsupported {F : Type} (lib : CliLib F) (fs : F) (n : String) (k : Kind)
    (hk : k ≠ Kind.IntKind ∧ k ≠ Kind.StringKind ∧ k ≠ Kind.BoolKind ∧
      k ≠ Kind.NumberKind ∧ k ≠ Kind.FloatKind) :
    getTyped lib fs n k = none := by
  obtain ⟨h1, h2, h3, h4, h5⟩ := hk
  cases k <;> first | rfl | contradiction

theorem BaseComplete_withoutParam {F : Type} (D : AppDeps) (lib : CliLib F)
    (envName workloadName appName : String) (fs : F) (workloadType : String) (v : Parameter)
    (hskip : ∀ data, completeParam lib fs data v = .ok data) :
    BaseComplete (withoutParam D v) lib envName workloadName appName fs workloadType =
      BaseComplete D lib envName workloadName appName fs workloadType := by
  have hload : LoadIfExist (withoutParam D v) envName workloadName appName =
      LoadIfExist D envName workloadName appName := rfl
  cases hL : LoadIfExist D envName workloadName appName with
  | none => simp only [BaseComplete, hload, hL]
  | some r =>
    obtain ⟨app, err⟩ := r
    cases err with
    | some e => simp only [BaseComplete, hload, hL]
    | none =>
      cases hG : D.GetWorkload app workloadName with
      | mk tp data =>
        have hG1 : (withoutParam D v).GetWorkload app workloadName = (tp, data) := hG
        by_cases htp : tp = "" ∧ workloadType = ""
        · simp only [BaseComplete, hload, hL, hG, hG1, htp, and_self, if_true]
        · cases hT : D.LoadCapabilityByName (if tp = "" then workloadType else tp) with
          | mk template err =>
            have hT1 : (withoutParam D v).LoadCapabilityByName
                (if tp = "" then workloadType else tp) =
                (({ template with
                    Parameters := template.Parameters.filter fun p => decide (p ≠ v) }
                  : Capability), err) := by
              simp only [withoutParam, hT]
            cases err with
            | some e => simp only [BaseComplete, hload, hL, hG, hG1, htp, if_false, hT, hT1]
            | none =>
              rw [BaseComplete_of_loaded D lib envName workloadName appName fs workloadType
                  app tp data template hL hG htp hT,
                BaseComplete_of_loaded (withoutParam D v) lib envName workloadName appName fs
                  workloadType app tp data _ (hload.trans hL) hG1 htp hT1]
              simp only
              rw [completeParams_filter lib fs v hskip]
              rfl

theorem AddOrUpdateTrait_withoutParam {F : Type} (D : AppDeps) (lib : CliLib F)
    (env : EnvMeta) (appName componentName : String) (fs : F) (template : Capability)
    (v : Parameter) (hskip : ∀ (fs1 : F) data, traitParam lib fs1 data v = .ok data) :
    AddOrUpdateTrait D lib env appName componentName fs
        { template with
          Parameters := template.Parameters.filter fun p => decide (p ≠ v) } =
      AddOrUpdateTrait D lib env appName componentName fs template := by
  unfold AddOrUpdateTrait
  simp only
  cases ValidateAndMutateForCore lib template.Name componentName fs env with
  | mk fs1 r =>
    obtain ⟨env1, err⟩ := r
    cases err with
    | some e => rfl
    | none =>
      simp only [traitParams_filter lib fs1 v (hskip fs1)]

/-- C16: a parameter whose kind is none of int, string, bool, number and float,
with a text in its flag, is skipped by the loop of `BaseComplete` and (whatever
its flag) by the loop of `AddOrUpdateTrait`: the data is left as it is and no
error is returned for it, either loop gives the same result as for the
parameter list without it, and so do `BaseComplete` and `AddOrUpdateTrait` for
the templates without it. -/
theorem unsupported_kind_skipped {F : Type} (lib : CliLib F) (fs : F) (v : Parameter)
    (hk : v.Type_ ≠ Kind.IntKind ∧ v.Type_ ≠ Kind.StringKind ∧ v.Type_ ≠ Kind.BoolKind ∧
      v.Type_ ≠ Kind.NumberKind ∧ v.Type_ ≠ Kind.FloatKind)
    (hval : ∃ t, lib.Lookup fs (flagName v) = some t ∧ t ≠ "") :
    (∀ data, completeParam lib fs data v = .ok data) ∧
    (∀ fs1 data, traitParam lib fs1 data v = .ok data) ∧
    (∀ data ps1 ps2,
      completeParams lib fs data (ps1 ++ v :: ps2) = completeParams lib fs data (ps1 ++ ps2)) ∧
    (∀ fs1 data ps1 ps2,
      traitParams lib fs1 data (ps1 ++ v :: ps2) = traitParams lib fs1 data (ps1 ++ ps2)) ∧
    (∀ (D : AppDeps) (envName workloadName appName workloadType : String),
      BaseComplete (withoutParam D v) lib envName workloadName appName fs workloadType =
        BaseComplete D lib envName workloadName appName fs workloadType) ∧
    (∀ (D : AppDeps) (env : EnvMeta) (appName componentName : String)
      (template : Capability),
      AddOrUpdateTrait D lib env appName componentName fs
          { template with
            Parameters := template.Parameters.filter fun p => decide (p ≠ v) } =
        AddOrUpdateTrait D lib env appName componentName fs template) := by
  have hc : ∀ data, completeParam lib fs data v = .ok data := by
    intro data
    obtain ⟨t, ht, hne⟩ := hval
    have hnot :
        ¬ (lib.Lookup fs (flagName v) = none ∨ lib.Lookup fs (flagName v) = some "") := by
      rw [ht]
      simp [hne]
    simp only [completeParam, hnot, if_false, getTyped_unsupported lib fs _ _ hk]
    split <;> rfl
  have ht : ∀ (fs1 : F) data, traitParam lib fs1 data v = .ok data := by
    intro fs1 data
    simp only [traitParam, getTyped_unsupported lib fs1 _ _ hk]
  refine ⟨hc, ht, ?_, ?_, ?_, ?_⟩
  · intro data ps1 ps2
    rw [completeParams_append, completeParams_append]
    cases completeParams lib fs data ps1 with
    | error e => rfl
    | ok d => simp only [completeParams, hc d]
  · intro fs1 data ps1 ps2
    rw [traitParams_append, traitParams_append]
    cases traitParams lib fs1 data ps1 with
    | error e => rfl
    | ok d => simp only [traitParams, ht fs1 d]
  · intro D envName workloadName appName workloadType
    exact BaseComplete_withoutParam D lib envName workloadName appName fs workloadType v hc
  · intro D env appName componentName template
    exact AddOrUpdateTrait_withoutParam D lib env appName componentName fs template v ht

/-- C16, at the parameter `volumes` of kind list between `debug` and `image`. -/
theorem unsupported_kind_skipped_witness :
    completeParams stringFlags [("volumes", "a,b"), ("i", "nginx")] []
        ([{ Name := "debug", Alias := "", Required := false, Type_ := Kind.BoolKind }] ++
          { Name := "volumes", Alias := "", Required := false, Type_ := Kind.ListKind } ::
          [{ Name := "image", Alias := "i", Required := true, Type_ := Kind.StringKind }]) =
      completeParams stringFlags [("volumes", "a,b"), ("i", "nginx")] []
        ([{ Name := "debug", Alias := "", Required := false, Type_ := Kind.BoolKind }] ++
          [{ Name := "image", Alias := "i", Required := true, Type_ := Kind.StringKind }]) :=
  (unsupported_kind_skipped stringFlags [("volumes", "a,b"), ("i", "nginx")]
    { Name := "volumes", Alias := "", Required := false, Type_ := Kind.ListKind }
    (by decide) ⟨"a,b", rfl, by decide⟩).2.2.1 [] _ _

/-! ## The center registry -/

theorem replaceCenter_names (c : CapCenterConfig) (l : List CapCenterConfig) :
    (replaceCenter c l).1.map (fun r => r.Name) = l.map (fun r => r.Name) := by
  induction l with
  | nil => rfl
  | cons r rest ih =>
    by_cases h : r.Name = c.Name
    · simp [replaceCenter, h]
    · simp only [replaceCenter, h, if_false, List.map_cons]
      rw [ih]

theorem replaceCenter_updated (c : CapCenterConfig) (l : List CapCenterConfig) :
    (replaceCenter c l).2 = true ↔ c.Name ∈ l.map (fun r => r.Name) := by
  induction l with
  | nil => simp [replaceCenter]
  | cons r rest ih =>
    by_cases h : r.Name = c.Name
    · simp [replaceCenter, h]
    · have h2 : ¬ c.Name = r.Name := fun e => h e.symm
      simp only [replaceCenter, h, if_false, List.map_cons, List.mem_cons, h2, false_or]
      exact ih

theorem replaceCenter_other (c : CapCenterConfig) (l : List CapCenterConfig) :
    ∀ (i : Nat) (r : CapCenterConfig), l[i]? = some r → r.Name ≠ c.Name →
      (replaceCenter c l).1[i]? = some r := by
  induction l with
  | nil => intro i r h; simp at h
  | cons a rest ih =>
    intro i r h hne
    by_cases ha : a.Name = c.Name
    · cases i with
      | zero =>
        simp only [List.getElem?_cons_zero, Option.some.injEq] at h
        subst h
        exact absurd ha hne
      | succ j =>
        simp only [List.getElem?_cons_succ] at h
        simp only [replaceCenter, ha, if_true, List.getElem?_cons_succ]
        exact h
    · cases i with
      | zero =>
        simp only [List.getElem?_cons_zero] at h
        simp only [replaceCenter, ha, if_false, List.getElem?_cons_zero]
        exact h
      | succ j =>
        simp only [List.getElem?_cons_succ] at h
        simp only [replaceCenter, ha, if_false, List.getElem?_cons_succ]
        exact ih j r h hne

theorem replaceCenter_same (c : CapCenterConfig) (l : List CapCenterConfig)
    (hnodup : (l.map fun r => r.Name).Nodup) :
    ∀ (i : Nat) (r : CapCenterConfig), l[i]? = some r → r.Name = c.Name →
      (replaceCenter c l).1[i]? = some c := by
  induction l with
  | nil => intro i r h; simp at h
  | cons a rest ih =>
    intro i r h hr
    have hn : a.Name ∉ rest.map (fun r => r.Name) ∧ (rest.map fun r => r.Name).Nodup := by
      simpa [List.nodup_cons] using hnodup
    by_cases ha : a.Name = c.Name
    · cases i with
      | zero => simp [replaceCenter, ha]
      | succ j =>
        simp only [List.getElem?_cons_succ] at h
        have hmem : r ∈ rest := List.getElem?_mem h
        have hmem2 : r.Name ∈ rest.map (fun r => r.Name) :=
          List.mem_map_of_mem (fun r => r.Name) hmem
        rw [hr, ← ha] at hmem2
        exact absurd hmem2 hn.1
    · cases i with
      | zero =>
        simp only [List.getElem?_cons_zero, Option.some.injEq] at h
        subst h
        exact absurd hr ha
      | succ j =>
        simp only [List.getElem?_cons_succ] at h
        simp only [replaceCenter, ha, if_false, List.getElem?_cons_succ]
        exact ih hn.2 j r h hr

theorem replaceCenter_filter (c : CapCenterConfig) (l : List CapCenterConfig)
    (hnodup : (l.map fun r => r.Name).Nodup) (hmem : c.Name ∈ l.map fun r => r.Name) :
    (replaceCenter c l).1.filter (fun r => decide (r.Name = c.Name)) = [c] := by
  induction l with
  | nil => simp at hmem
  | cons a rest ih =>
    have hn : a.Name ∉ rest.map (fun r => r.Name) ∧ (rest.map fun r => r.Name).Nodup := by
      simpa [List.nodup_cons] using hnodup
    by_cases ha : a.Name = c.Name
    · simp only [replaceCenter, ha, if_true, List.filter_cons, decide_True]
      congr 1
      rw [List.filter_eq_nil_iff]
      intro r hr
      have : r.Name ≠ c.Name := by
        intro e
        apply hn.1
        rw [ha, ← e]
        exact List.mem_map_of_mem (fun r => r.Name) hr
      simp [this]
    · have hmem2 : c.Name ∈ rest.map fun r => r.Name := by
        have h2 : ¬ c.Name = a.Name := fun e => ha e.symm
        simpa [h2] using hmem
      simp only [replaceCenter, ha, if_false, List.filter_cons, decide_False,
        Bool.false_eq_true]
      exact ih hn.2 hmem2

theorem filter_name_of_not_mem (c : CapCenterConfig) (l : List CapCenterConfig)
    (h : c.Name ∉ l.map fun r => r.Name) :
    l.filter (fun r => decide (r.Name = c.Name)) = [] := by
  rw [List.filter_eq_nil_iff]
  intro r hr
  have : r.Name ≠ c.Name := by
    intro e
    apply h
    rw [← e]
    exact List.mem_map_of_mem (fun r => r.Name) hr
  simp [this]

/-- C17: when the loaded center list has pairwise distinct names,
`AddCapabilityCenter` passes to `StoreRepos` a list with pairwise distinct
names that contains exactly one entry of the given name, carrying the new
address and token, keeps every other entry unchanged and in place, replaces
the entry of that name in place, and is longer than the loaded list by one
exactly when the name was not present. -/
theorem AddCapabilityCenter_registry (D : CenterDeps) (repos : List CapCenterConfig)
    (capName capURL capToken : String)
    (hload : D.LoadRepos = (repos, none))
    (hnodup : (repos.map fun r => r.Name).Nodup) :
    ∃ stored : List CapCenterConfig,
      (AddCapabilityCenter D capName capURL capToken).2.head? =
        some (CenterCall.storeRepos stored) ∧
      (stored.map fun r => r.Name).Nodup ∧
      stored.filter (fun r => decide (r.Name = capName)) =
        [{ Name := capName, Address := capURL, Token := capToken }] ∧
      (∀ (i : Nat) (r : CapCenterConfig), repos[i]? = some r → r.Name ≠ capName →
        stored[i]? = some r) ∧
      (∀ (i : Nat) (r : CapCenterConfig), repos[i]? = some r → r.Name = capName →
        stored[i]? = some { Name := capName, Address := capURL, Token := capToken }) ∧
      stored.length =
        repos.length + (if capName ∈ repos.map (fun r => r.Name) then 0 else 1) := by
  have hcall : ∀ (l : List CapCenterConfig) (u : Bool),
      replaceCenter { Name := capName, Address := capURL, Token := capToken } repos = (l, u) →
      (AddCapabilityCenter D capName capURL capToken).2.head? =
        some (CenterCall.storeRepos
          (if !u then l ++ [{ Name := capName, Address := capURL, Token := capToken }]
            else l)) := by
    intro l u hlu
    simp only [AddCapabilityCenter, hload, hlu]
    cases D.StoreRepos
        (if !u then l ++ [{ Name := capName, Address := capURL, Token := capToken }]
          else l) with
    | some e => rfl
    | none => rfl
  have hnames := replaceCenter_names
    { Name := capName, Address := capURL, Token := capToken } repos
  have hupd := replaceCenter_updated
    { Name := capName, Address := capURL, Token := capToken } repos
  have hother := replaceCenter_other
    { Name := capName, Address := capURL, Token := capToken } repos
  have hsame := replaceCenter_same
    { Name := capName, Address := capURL, Token := capToken } repos hnodup
  cases hlu : replaceCenter { Name := capName, Address := capURL, Token := capToken } repos with
  | mk l u =>
    rw [hlu] at hnames hupd hother hsame
    simp only at hnames hupd hother hsame
    have hlen : l.length = repos.length := by
      have := congrArg List.length hnames
      simpa using this
    refine ⟨_, hcall l u hlu, ?_⟩
    cases u with
    | true =>
      have hmem : capName ∈ repos.map fun r => r.Name := hupd.1 rfl
      have hfilter := replaceCenter_filter
        { Name := capName, Address := capURL, Token := capToken } repos hnodup hmem
      rw [hlu] at hfilter
      simp only [Bool.not_true, Bool.false_eq_true, if_false, hmem, if_true, Nat.add_zero]
      exact ⟨hnames ▸ hnodup, hfilter, hother, hsame, hlen⟩
    | false =>
      have hmem : capName ∉ repos.map fun r => r.Name := by
        intro h
        exact absurd (hupd.2 h) (by simp)
      simp only [Bool.not_false, if_true, hmem, if_false]
      have hl : l = repos := by
        apply List.ext_getElem? 
        intro i
        cases hr : repos[i]? with
        | none =>
          rw [List.getElem?_eq_none_iff] at hr ⊢
          omega
        | some r =>
          apply hother i r hr
          intro e
          apply hmem
          rw [← e]
          exact List.mem_map_of_mem (fun r => r.Name) (List.getElem?_mem hr)
      subst hl
      refine ⟨?_, ?_, ?_, ?_, ?_⟩
      · rw [List.map_append, List.nodup_append]
        refine ⟨hnodup, List.nodup_singleton _, ?_⟩
        intro a ha hb
        simp only [List.map_cons, List.map_nil, List.mem_singleton] at hb
        exact hmem (hb ▸ ha)
      · rw [List.filter_append, filter_name_of_not_mem
          { Name := capName, Address := capURL, Token := capToken } l hmem]
        simp
      · intro i r hr _
        rw [List.getElem?_append_left (List.getElem?_eq_some_iff.1 hr).1]
        exact hr
      · intro i r hr hn
        exact absurd (hn ▸ List.mem_map_of_mem (fun r => r.Name) (List.getElem?_mem hr)) hmem
      · simp

/-- C17, at a registry with the centers `core` and `extra`, re-adding `core`. -/
theorem AddCapabilityCenter_registry_witness :
    ∃ stored : List CapCenterConfig,
      (AddCapabilityCenter
        (sampleCenters [{ Name := "core", Address := "https://example/old", Token := "" },
          { Name := "extra", Address := "https://example/extra", Token := "t" }])
        "core" "https://example/repo" "s").2.head? = some (CenterCall.storeRepos stored) ∧
      (stored.map fun r => r.Name).Nodup ∧
      stored.filter (fun r => decide (r.Name = "core")) =
        [{ Name := "core", Address := "https://example/repo", Token := "s" }] ∧
      (∀ (i : Nat) (r : CapCenterConfig),
        [({ Name := "core", Address := "https://example/old", Token := "" } : CapCenterConfig),
          { Name := "extra", Address := "https://example/extra", Token := "t" }][i]? = some r →
        r.Name ≠ "core" → stored[i]? = some r) ∧
      (∀ (i : Nat) (r : CapCenterConfig),
        [({ Name := "core", Address := "https://example/old", Token := "" } : CapCenterConfig),
          { Name := "extra", Address := "https://example/extra", Token := "t" }][i]? = some r →
        r.Name = "core" →
        stored[i]? = some { Name := "core", Address := "https://example/repo", Token := "s" }) ∧
      stored.length = 2 + 0 :=
  AddCapabilityCenter_registry
    (sampleCenters [{ Name := "core", Address := "https://example/old", Token := "" },
      { Name := "extra", Address := "https://example/extra", Token := "t" }])
    [{ Name := "core", Address := "https://example/old", Token := "" },
      { Name := "extra", Address := "https://example/extra", Token := "t" }]
    "core" "https://example/repo" "s" rfl (by decide)

/-! ## Installing and removing a capability -/

theorem installDefinition_ok (D : ClusterDeps) (repoDir kind : String) (tp tp1 : Capability)
    (calls : List ClusterCall) (h : installDefinition D repoDir kind tp = .ok (tp1, calls)) :
    ∃ (calls0 : List ClusterCall) (wd : Definition) (gvk : GVK),
      calls = calls0 ++ [ClusterCall.create kind wd] ∧
      (∀ c ∈ calls0, ∃ chart, c = ClusterCall.installHelmChart chart) ∧
      (∀ e, D.Create kind wd = some e → D.IsAlreadyExists e = true) ∧
      D.GetGVKFromDefinition wd.Reference = (gvk, none) ∧
      tp1.CrdInfo = some { APIVersion := gvk.GroupVersionString, Kind := gvk.Kind } ∧
      tp1.Name = tp.Name ∧
      tp1.Source.map (fun src => src.RepoName) = tp.Source.map (fun src => src.RepoName) := by
  unfold installDefinition at h
  split at h
  · cases h
  · rename_i data hread
    split at h
    · cases h
    · rename_i wd0 hun
      simp only at h
      split at h
      · cases h
      · rename_i tp2 calls0 hhelm
        have hhelm2 : (∀ c ∈ calls0, ∃ chart, c = ClusterCall.installHelmChart chart) ∧
            tp2.Name = tp.Name ∧
            tp2.Source.map (fun src => src.RepoName) =
              tp.Source.map (fun src => src.RepoName) := by
          split at hhelm
          · cases hhelm
            exact ⟨by simp, rfl, rfl⟩
          · split at hhelm
            · cases hhelm
            · cases hhelm
              refine ⟨by simp, rfl, ?_⟩
              cases tp.Source <;> rfl
        split at h
        · cases h
        · rename_i gvk hgvk
          split at h
          · rename_i e hcreate
            split at h
            · cases h
            · rename_i hex
              cases h
              refine ⟨calls0, _, gvk, rfl, hhelm2.1, ?_, hgvk, rfl, hhelm2.2.1, hhelm2.2.2⟩
              intro e1 he1
              rw [hcreate] at he1
              cases he1
              simpa using hex
          · rename_i hcreate
            cases h
            refine ⟨calls0, _, gvk, rfl, hhelm2.1, ?_, hgvk, rfl, hhelm2.2.1, hhelm2.2.2⟩
            intro e1 he1
            rw [hcreate] at he1
            cases he1

theorem installDefinition_error (D : ClusterDeps) (repoDir kind : String) (tp : Capability)
    (err : Option String) (calls : List ClusterCall)
    (h : installDefinition D repoDir kind tp = .error (err, calls)) :
    (err = none →
      (D.ReadFile (D.Clean (D.Join [repoDir, tp.CrdName ++ ".yaml"]))).2 ≠ none) ∧
    ((∀ c ∈ calls, ∃ chart, c = ClusterCall.installHelmChart chart) ∨
      ∃ (calls0 : List ClusterCall) (wd : Definition) (e : String),
        calls = calls0 ++ [ClusterCall.create kind wd] ∧
        (∀ c ∈ calls0, ∃ chart, c = ClusterCall.installHelmChart chart) ∧
        D.Create kind wd = some e ∧ D.IsAlreadyExists e = false ∧ err = some e) := by
  unfold installDefinition at h
  split at h
  · rename_i e0 hread
    cases h
    exact ⟨fun _ => (by rw [hread]; simp), Or.inl (by simp)⟩
  · rename_i data hread
    split at h
    · cases h
      exact ⟨fun h0 => (by cases h0), Or.inl (by simp)⟩
    · rename_i wd0 hun
      simp only at h
      split at h
      · rename_i r hhelm
        cases h
        split at hhelm
        · cases hhelm
        · split at hhelm
          · cases hhelm
            exact ⟨fun h0 => (by cases h0), Or.inl (by simp)⟩
          · cases hhelm
      · rename_i tp2 calls0 hhelm
        have hhelm2 : ∀ c ∈ calls0, ∃ chart, c = ClusterCall.installHelmChart chart := by
          split at hhelm
          · cases hhelm
            simp
          · split at hhelm
            · cases hhelm
            · cases hhelm
              simp
        split at h
        · cases h
          exact ⟨fun h0 => (by cases h0), Or.inl hhelm2⟩
        · rename_i gvk hgvk
          split at h
          · rename_i e hcreate
            split at h
            · rename_i hex
              cases h
              refine ⟨fun h0 => (by cases h0), Or.inr ⟨calls0, _, e, rfl, hhelm2, hcreate, ?_, rfl⟩⟩
              simpa using hex
            · cases h
          · cases h

theorem InstallCapability_of_kind (D : ClusterDeps) (centerName capabilityName : String)
    (tp0 : Capability) (kind : String)
    (hG : GetCapabilityFromCenter D centerName capabilityName = (tp0, none))
    (hk : (tp0.Type_ = TypeWorkload ∧ kind = TypeWorkload) ∨
      (tp0.Type_ = TypeTrait ∧ kind = TypeTrait)) :
    InstallCapability D centerName capabilityName =
      match installDefinition D (D.Join [D.GetCapCenterDir, centerName]) kind
          { tp0 with Source := some { RepoName := centerName, ChartName := "" } } with
      | .error r => r
      | .ok (tp1, calls) =>
        (none, calls ++ [ClusterCall.sinkTemp2Local [tp1] D.GetCapabilityDir]) := by
  rcases hk with ⟨ht, hkind⟩ | ⟨ht, hkind⟩
  · subst hkind
    simp only [InstallCapability, hG, ht, if_true]
  · subst hkind
    have hne : ¬ TypeTrait = TypeWorkload := by decide
    simp only [InstallCapability, hG, ht, hne, if_false, if_true]

theorem InstallCapability_of_other (D : ClusterDeps) (centerName capabilityName : String)
    (tp0 : Capability)
    (hG : GetCapabilityFromCenter D centerName capabilityName = (tp0, none))
    (h1 : tp0.Type_ ≠ TypeWorkload) (h2 : tp0.Type_ ≠ TypeTrait) :
    InstallCapability D centerName capabilityName =
      (none, [ClusterCall.sinkTemp2Local
        [{ tp0 with Source := some { RepoName := centerName, ChartName := "" } }]
        D.GetCapabilityDir]) := by
  simp only [InstallCapability, hG, h1, h2, if_false, List.nil_append]

theorem InstallCapability_of_error (D : ClusterDeps) (centerName capabilityName : String)
    (tp0 : Capability) (err : String)
    (hG : GetCapabilityFromCenter D centerName capabilityName = (tp0, some err)) :
    InstallCapability D centerName capabilityName = (some err, []) := by
  simp only [InstallCapability, hG]

theorem findTemplate_name (n : String) (l : List Capability) (t : Capability)
    (h : findTemplate n l = some t) : t.Name = n := by
  induction l with
  | nil => simp [findTemplate] at h
  | cons a rest ih =>
    by_cases ha : a.Name = n
    · simp only [findTemplate, ha, if_true, Option.some.injEq] at h
      rw [← h]
      exact ha
    · simp only [findTemplate, ha, if_false] at h
      exact ih h

theorem GetCapabilityFromCenter_name (D : ClusterDeps) (repoName addonName : String)
    (t : Capability) (h : GetCapabilityFromCenter D repoName addonName = (t, none)) :
    t.Name = addonName := by
  simp only [GetCapabilityFromCenter] at h
  split at h
  · cases h
  · split at h
    · rename_i t1 hf
      cases h
      exact findTemplate_name _ _ _ hf
    · cases h

theorem create_mem_of_helm (calls0 : List ClusterCall) (kind kind0 : String)
    (wd wd0 : Definition)
    (hhelm : ∀ c ∈ calls0, ∃ chart, c = ClusterCall.installHelmChart chart)
    (h : ClusterCall.create kind wd ∈ calls0 ++ [ClusterCall.create kind0 wd0]) :
    kind = kind0 ∧ wd = wd0 := by
  rw [List.mem_append] at h
  rcases h with h | h
  · obtain ⟨chart, hc⟩ := hhelm _ h
    cases hc
  · simp only [List.mem_singleton, ClusterCall.create.injEq] at h
    exact h

theorem InstallCapability_run (D : ClusterDeps) (centerName capabilityName : String) :
    (∃ err, InstallCapability D centerName capabilityName = (some err, [])) ∨
    (∃ tp, InstallCapability D centerName capabilityName =
      (none, [ClusterCall.sinkTemp2Local [tp] D.GetCapabilityDir])) ∨
    (∃ tp0 kind,
      GetCapabilityFromCenter D centerName capabilityName = (tp0, none) ∧
      ((tp0.Type_ = TypeWorkload ∧ kind = TypeWorkload) ∨
        (tp0.Type_ = TypeTrait ∧ kind = TypeTrait)) ∧
      InstallCapability D centerName capabilityName =
        match installDefinition D (D.Join [D.GetCapCenterDir, centerName]) kind
            { tp0 with Source := some { RepoName := centerName, ChartName := "" } } with
        | .error r => r
        | .ok (tp1, calls) =>
          (none, calls ++ [ClusterCall.sinkTemp2Local [tp1] D.GetCapabilityDir])) := by
  cases hG : GetCapabilityFromCenter D centerName capabilityName with
  | mk tp0 err =>
    cases err with
    | some e => exact Or.inl ⟨e, InstallCapability_of_error D _ _ tp0 e hG⟩
    | none =>
      by_cases h1 : tp0.Type_ = TypeWorkload
      · exact Or.inr (Or.inr ⟨tp0, TypeWorkload, rfl, Or.inl ⟨h1, rfl⟩,
          InstallCapability_of_kind D _ _ tp0 _ hG (Or.inl ⟨h1, rfl⟩)⟩)
      · by_cases h2 : tp0.Type_ = TypeTrait
        · exact Or.inr (Or.inr ⟨tp0, TypeTrait, rfl, Or.inr ⟨h2, rfl⟩,
            InstallCapability_of_kind D _ _ tp0 _ hG (Or.inr ⟨h2, rfl⟩)⟩)
        · exact Or.inr (Or.inl ⟨_, InstallCapability_of_other D _ _ tp0 hG h1 h2⟩)

/-- C18: when `InstallCapability` has called the cluster's `Create` and the call
returned an error, then for an already-exists error the function returns no
error and its last call is the commit `SinkTemp2Local` of one capability, and
for any other error the function returns that error and has made no commit. -/
theorem InstallCapability_retry_safe (D : ClusterDeps) (centerName capabilityName : String)
    (kind : String) (wd : Definition) (e : String)
    (hcall : ClusterCall.create kind wd ∈ (InstallCapability D centerName capabilityName).2)
    (hcreate : D.Create kind wd = some e) :
    (D.IsAlreadyExists e = true →
      (InstallCapability D centerName capabilityName).1 = none ∧
      ∃ tp, (InstallCapability D centerName capabilityName).2.getLast? =
        some (ClusterCall.sinkTemp2Local [tp] D.GetCapabilityDir)) ∧
    (D.IsAlreadyExists e = false →
      (InstallCapability D centerName capabilityName).1 = some e ∧
      ∀ caps dir, ClusterCall.sinkTemp2Local caps dir ∉
        (InstallCapability D centerName capabilityName).2) := by
  rcases InstallCapability_run D centerName capabilityName with
    ⟨err, hr⟩ | ⟨tp, hr⟩ | ⟨tp0, kind0, hG, hk, hr⟩
  · rw [hr] at hcall
    simp at hcall
  · rw [hr] at hcall
    simp at hcall
  · cases hI : installDefinition D (D.Join [D.GetCapCenterDir, centerName]) kind0
        { tp0 with Source := some { RepoName := centerName, ChartName := "" } } with
    | error r =>
      obtain ⟨err, calls⟩ := r
      rw [hI] at hr
      simp only at hr
      rw [hr] at hcall ⊢
      simp only at hcall ⊢
      rcases (installDefinition_error D _ _ _ err calls hI).2 with hh | hh
      · obtain ⟨chart, hc⟩ := hh _ hcall
        cases hc
      · obtain ⟨calls0, wd0, e0, hcalls, hhelm, hc0, hex, herr⟩ := hh
        subst hcalls
        obtain ⟨hk1, hw1⟩ := create_mem_of_helm calls0 kind kind0 wd wd0 hhelm hcall
        subst hk1
        subst hw1
        rw [hcreate] at hc0
        cases hc0
        constructor
        · intro h
          rw [h] at hex
          cases hex
        · intro _
          refine ⟨herr, ?_⟩
          intro caps dir hmem
          rw [List.mem_append] at hmem
          rcases hmem with hmem | hmem
          · obtain ⟨chart, hc⟩ := hhelm _ hmem
            cases hc
          · simp at hmem
    | ok r =>
      obtain ⟨tp1, calls⟩ := r
      rw [hI] at hr
      simp only at hr
      rw [hr] at hcall ⊢
      simp only at hcall ⊢
      obtain ⟨calls0, wd0, gvk, hcalls, hhelm, hex, _⟩ :=
        installDefinition_ok D _ _ _ tp1 calls hI
      subst hcalls
      have hmem : ClusterCall.create kind wd ∈ calls0 ++ [ClusterCall.create kind0 wd0] := by
        rw [List.mem_append] at hcall
        rcases hcall with h | h
        · exact h
        · simp at h
      obtain ⟨hk1, hw1⟩ := create_mem_of_helm calls0 kind kind0 wd wd0 hhelm hmem
      subst hk1
      subst hw1
      constructor
      · intro _
        exact ⟨trivial, tp1, by simp⟩
      · intro h
        rw [hex e hcreate] at h
        cases h

/-- C18, at the workload `webservice` whose definition is already in the
cluster. -/
theorem InstallCapability_retry_safe_witness :
    (InstallCapability
        (sampleCluster [webservice]
          (some "workloaddefinitions.core.oam.dev \"webservice\" already exists") none)
        "core" "webservice").1 = none ∧
    ∃ tp, (InstallCapability
        (sampleCluster [webservice]
          (some "workloaddefinitions.core.oam.dev \"webservice\" already exists") none)
        "core" "webservice").2.getLast? =
      some (ClusterCall.sinkTemp2Local [tp] "/home/.vela/capabilities") :=
  (InstallCapability_retry_safe
    (sampleCluster [webservice]
      (some "workloaddefinitions.core.oam.dev \"webservice\" already exists") none)
    "core" "webservice" TypeWorkload
    { Name := "webservice", Namespace := "vela-system", Reference := "deployments.apps" }
    "workloaddefinitions.core.oam.dev \"webservice\" already exists"
    (by decide) rfl).1 (by decide)

/-- C19, as stated, fails: for a scope capability `InstallCapability` returns no
error and commits the capability without resource-kind info. -/
theorem InstallCapability_scope_without_info :
    InstallCapability (sampleCluster [healthscope] none none) "core" "healthscope" =
      (none, [ClusterCall.sinkTemp2Local
        [{ healthscope with Source := some { RepoName := "core", ChartName := "" } }]
        "/home/.vela/capabilities"]) ∧
    ({ healthscope with Source := some { RepoName := "core", ChartName := "" } }
      : Capability).CrdInfo = none :=
  ⟨by decide, rfl⟩

/-- C19, amended: for a workload or trait capability whose definition file is
read, whenever `InstallCapability` returns without error its last call is the
commit `SinkTemp2Local` of the capability of that name, with the resource-kind
info set to the API version and kind that the discovery returned for the
definition's reference and with the source's `RepoName` set to the center. -/
theorem InstallCapability_commits (D : ClusterDeps) (centerName capabilityName : String)
    (tp0 : Capability)
    (hG : GetCapabilityFromCenter D centerName capabilityName = (tp0, none))
    (hkind : tp0.Type_ = TypeWorkload ∨ tp0.Type_ = TypeTrait)
    (hread : (D.ReadFile (D.Clean
      (D.Join [D.Join [D.GetCapCenterDir, centerName], tp0.CrdName ++ ".yaml"]))).2 = none)
    (hok : (InstallCapability D centerName capabilityName).1 = none) :
    ∃ (tp : Capability) (wd : Definition) (gvk : GVK),
      (InstallCapability D centerName capabilityName).2.getLast? =
        some (ClusterCall.sinkTemp2Local [tp] D.GetCapabilityDir) ∧
      ClusterCall.create tp0.Type_ wd ∈ (InstallCapability D centerName capabilityName).2 ∧
      D.GetGVKFromDefinition wd.Reference = (gvk, none) ∧
      tp.Name = capabilityName ∧
      tp.CrdInfo = some { APIVersion := gvk.GroupVersionString, Kind := gvk.Kind } ∧
      tp.Source.map (fun src => src.RepoName) = some centerName := by
  have hk : (tp0.Type_ = TypeWorkload ∧ tp0.Type_ = TypeWorkload) ∨
      (tp0.Type_ = TypeTrait ∧ tp0.Type_ = TypeTrait) := by
    rcases hkind with h | h
    · exact Or.inl ⟨h, h⟩
    · exact Or.inr ⟨h, h⟩
  have hr := InstallCapability_of_kind D centerName capabilityName tp0 tp0.Type_ hG hk
  cases hI : installDefinition D (D.Join [D.GetCapCenterDir, centerName]) tp0.Type_
      { tp0 with Source := some { RepoName := centerName, ChartName := "" } } with
  | error r =>
    obtain ⟨err, calls⟩ := r
    rw [hI] at hr
    simp only at hr
    rw [hr] at hok
    simp only at hok
    exact absurd hread ((installDefinition_error D _ _ _ err calls hI).1 hok)
  | ok r =>
    obtain ⟨tp1, calls⟩ := r
    rw [hI] at hr
    simp only at hr
    obtain ⟨calls0, wd, gvk, hcalls, _, _, hgvk, hinfo, hname, hsrc⟩ :=
      installDefinition_ok D _ _ _ tp1 calls hI
    refine ⟨tp1, wd, gvk, ?_, ?_, hgvk, ?_, hinfo, ?_⟩
    · rw [hr]
      simp
    · rw [hr, hcalls]
      simp
    · rw [hname]
      exact GetCapabilityFromCenter_name D centerName capabilityName tp0 hG
    · rw [hsrc]
      rfl

/-- C19 (amended), at the workload `webservice` of the center `core`. -/
theorem InstallCapability_commits_witness :
    ∃ (tp : Capability) (wd : Definition) (gvk : GVK),
      (InstallCapability (sampleCluster [webservice] none none) "core"
        "webservice").2.getLast? =
        some (ClusterCall.sinkTemp2Local [tp] "/home/.vela/capabilities") ∧
      ClusterCall.create "workload" wd ∈
        (InstallCapability (sampleCluster [webservice] none none) "core" "webservice").2 ∧
      (sampleCluster [webservice] none none).GetGVKFromDefinition wd.Reference =
        (gvk, none) ∧
      tp.Name = "webservice" ∧
      tp.CrdInfo = some { APIVersion := gvk.GroupVersionString, Kind := gvk.Kind } ∧
      tp.Source.map (fun src => src.RepoName) = some "core" :=
  InstallCapability_commits (sampleCluster [webservice] none none) "core" "webservice"
    webservice (by decide) (Or.inl rfl) rfl (by decide)

/-- C20, as stated, fails: when the cluster's `Delete` reports that the trait
definition is not found, `uninstallCap` returns that error at once; the chart
that was recorded is not uninstalled and the local entry is not removed. -/
theorem uninstallCap_not_found_fatal :
    uninstallCap
        (sampleCluster [] none
          (some "traitdefinitions.core.oam.dev \"route\" not found"))
        routeWithChart =
      (some "traitdefinitions.core.oam.dev \"route\" not found",
        [ClusterCall.delete (some ("trait", "route", "vela-system"))]) :=
  by decide

/-- C20, amended: in `uninstallCap` for a workload or trait capability every
error of the cluster's `Delete`, a not-found error included, is returned at
once, with no chart uninstall and no local removal; when `Delete` succeeds, a
recorded chart with a name is uninstalled, an error of that is returned without
the local removal, and otherwise the local entry is removed and the result of
the removal is returned. -/
theorem uninstallCap_delete (D : ClusterDeps) (cap : Capability)
    (hkind : cap.Type_ = TypeWorkload ∨ cap.Type_ = TypeTrait) :
    (∀ e, D.Delete (some (cap.Type_, cap.Name, D.DefaultKubeVelaNS)) = some e →
      uninstallCap D cap =
        (some e, [ClusterCall.delete (some (cap.Type_, cap.Name, D.DefaultKubeVelaNS))])) ∧
    (D.Delete (some (cap.Type_, cap.Name, D.DefaultKubeVelaNS)) = none →
      (∀ install, cap.Install = some install → install.Helm.Name ≠ "" →
        (∀ e, D.HelmUninstall install.Helm.Name
            (if install.Helm.Namespace = "" then D.DefaultKubeVelaNS
              else install.Helm.Namespace) cap.Name = some e →
          uninstallCap D cap =
            (some e, [ClusterCall.delete (some (cap.Type_, cap.Name, D.DefaultKubeVelaNS)),
              ClusterCall.helmUninstall install.Helm.Name
                (if install.Helm.Namespace = "" then D.DefaultKubeVelaNS
                  else install.Helm.Namespace) cap.Name])) ∧
        (D.HelmUninstall install.Helm.Name
            (if install.Helm.Namespace = "" then D.DefaultKubeVelaNS
              else install.Helm.Namespace) cap.Name = none →
          uninstallCap D cap =
            (D.Remove (D.Join [D.GetCapabilityDir,
                if cap.Type_ = TypeTrait then "traits" else "workloads", cap.Name]),
              [ClusterCall.delete (some (cap.Type_, cap.Name, D.DefaultKubeVelaNS)),
                ClusterCall.helmUninstall install.Helm.Name
                  (if install.Helm.Namespace = "" then D.DefaultKubeVelaNS
                    else install.Helm.Namespace) cap.Name,
                ClusterCall.remove (D.Join [D.GetCapabilityDir,
                  if cap.Type_ = TypeTrait then "traits" else "workloads", cap.Name])]))) ∧
      ((cap.Install = none ∨ ∃ install, cap.Install = some install ∧ install.Helm.Name = "") →
        uninstallCap D cap =
          (D.Remove (D.Join [D.GetCapabilityDir,
              if cap.Type_ = TypeTrait then "traits" else "workloads", cap.Name]),
            [ClusterCall.delete (some (cap.Type_, cap.Name, D.DefaultKubeVelaNS)),
              ClusterCall.remove (D.Join [D.GetCapabilityDir,
                if cap.Type_ = TypeTrait then "traits" else "workloads", cap.Name])]))) := by
  have hobj : uninstallObject D cap =
      .ok (some (cap.Type_, cap.Name, D.DefaultKubeVelaNS)) := by
    rcases hkind with h | h
    · have hne : ¬ TypeWorkload = TypeTrait := by decide
      simp only [uninstallObject, h, hne, if_false, if_true]
    · simp only [uninstallObject, h, if_true]
  have hpath : ∀ (calls : List ClusterCall),
      (if cap.Type_ = TypeTrait then
        (D.Remove (D.Join [D.GetCapabilityDir, "traits", cap.Name]),
          ClusterCall.delete (some (cap.Type_, cap.Name, D.DefaultKubeVelaNS)) :: calls ++
            [ClusterCall.remove (D.Join [D.GetCapabilityDir, "traits", cap.Name])])
      else if cap.Type_ = TypeWorkload then
        (D.Remove (D.Join [D.GetCapabilityDir, "workloads", cap.Name]),
          ClusterCall.delete (some (cap.Type_, cap.Name, D.DefaultKubeVelaNS)) :: calls ++
            [ClusterCall.remove (D.Join [D.GetCapabilityDir, "workloads", cap.Name])])
      else (none, ClusterCall.delete (some (cap.Type_, cap.Name, D.DefaultKubeVelaNS)) :: calls)) =
      (D.Remove (D.Join [D.GetCapabilityDir,
          if cap.Type_ = TypeTrait then "traits" else "workloads", cap.Name]),
        ClusterCall.delete (some (cap.Type_, cap.Name, D.DefaultKubeVelaNS)) :: calls ++
          [ClusterCall.remove (D.Join [D.GetCapabilityDir,
            if cap.Type_ = TypeTrait then "traits" else "workloads", cap.Name])]) := by
    intro calls
    rcases hkind with h | h
    · have hne : ¬ TypeWorkload = TypeTrait := by decide
      simp only [h, hne, if_false, if_true]
    · simp only [h, if_true]
  constructor
  · intro e he
    simp only [uninstallCap, hobj, he]
  · intro hdel
    constructor
    · intro install hinst hname
      constructor
      · intro e he
        simp only [uninstallCap, hobj, hdel, hinst, hname, ne_eq, not_false_eq_true, if_true, he]
      · intro hh
        simp only [uninstallCap, hobj, hdel, hinst, hname, ne_eq, not_false_eq_true, if_true, hh,
          hpath]
        rfl
    · intro hno
      rcases hno with hn | ⟨install, hinst, hname⟩
      · simp only [uninstallCap, hobj, hdel, hn, hpath]
        rfl
      · simp only [uninstallCap, hobj, hdel, hinst, hname, ne_eq, not_true_eq_false, if_false,
          hpath]
        rfl

/-- C20 (amended), at the trait `route` with the chart `router`: a failing and
a succeeding `Delete`. -/
theorem uninstallCap_delete_witness :
    uninstallCap (sampleCluster [] none (some "connection refused")) routeWithChart =
      (some "connection refused",
        [ClusterCall.delete (some ("trait", "route", "vela-system"))]) ∧
    uninstallCap (sampleCluster [] none none) routeWithChart =
      (none,
        [ClusterCall.delete (some ("trait", "route", "vela-system")),
          ClusterCall.helmUninstall "router" "vela-system" "route",
          ClusterCall.remove "/home/.vela/capabilities/traits/route"]) :=
  ⟨(uninstallCap_delete (sampleCluster [] none (some "connection refused")) routeWithChart
      (Or.inr rfl)).1 "connection refused" rfl,
   ((uninstallCap_delete (sampleCluster [] none none) routeWithChart (Or.inr rfl)).2 rfl).1
      { Helm := { Name := "router", Version := "0.1", URL := "", Namespace := "" } } rfl
      (by decide) |>.2 rfl⟩

/-! ## Reading capabilities from the cluster -/

/-- C21 at a failing input: a workload definition whose reference the discovery
does not resolve (`no matches for ...`). `validateCapabilities` drops the
error of `GetGVKFromDefinition`, returns no error and sets the resource-kind
info from the empty kind, and `GetWorkloadsFromCluster` returns the capability
with no fatal error. -/
theorem validateCapabilities_drops_gvk_error :
    (sampleSync [unknownDef]).GetGVKFromDefinition "rollouts.example.dev" =
      ({ Group := "", Version := "", Kind := "" },
        some "no matches for rollouts.example.dev/, Resource=") ∧
    validateCapabilities (sampleSync [unknownDef]) webservice "rollout"
        "rollouts.example.dev" =
      ({ webservice with CrdInfo := some { APIVersion := "", Kind := "" } }, none) ∧
    (GetWorkloadsFromCluster (sampleSync [unknownDef]) "vela-system" "/tmp/sync" "").2.2 =
      none ∧
    (GetWorkloadsFromCluster (sampleSync [unknownDef]) "vela-system" "/tmp/sync" "").1.map
        (fun cap => (cap.Name, cap.CrdInfo)) =
      [("rollout", some { APIVersion := "", Kind := "" })] := by
  refine ⟨by decide, by decide, by decide, by decide⟩

theorem syncLoop_eq (D : SyncDeps) (syncDir tp word : String)
    (applyTo : ClusterDefinition → List String) (defs : List ClusterDefinition) :
    ∀ (templates : List Capability) (templateErrors : List String),
      (∀ wd ∈ defs, ∀ tmp,
        HandleDefinition D wd.Name syncDir wd.Reference wd.Annotations wd.Extension tp
          (applyTo wd) = (tmp, none) →
        (validateCapabilities D tmp wd.Name wd.Reference).2 = none) →
      syncLoop D syncDir tp word applyTo defs templates templateErrors =
        (templates ++ defs.filterMap (syncedCapability D syncDir tp applyTo),
          templateErrors ++ defs.filterMap (syncError D syncDir tp word applyTo), none) := by
  induction defs with
  | nil => intro templates templateErrors _; simp [syncLoop]
  | cons wd rest ih =>
    intro templates templateErrors hval
    have hrest : ∀ wd1 ∈ rest, ∀ tmp,
        HandleDefinition D wd1.Name syncDir wd1.Reference wd1.Annotations wd1.Extension tp
          (applyTo wd1) = (tmp, none) →
        (validateCapabilities D tmp wd1.Name wd1.Reference).2 = none :=
      fun wd1 h1 => hval wd1 (List.mem_cons_of_mem _ h1)
    cases hH : HandleDefinition D wd.Name syncDir wd.Reference wd.Annotations wd.Extension tp
        (applyTo wd) with
    | mk tmp err =>
      cases err with
      | some e =>
        simp only [syncLoop, hH, List.filterMap_cons, syncedCapability, syncError]
        rw [ih _ _ hrest]
        simp [syncedCapability, syncError]
      | none =>
        have hv := hval wd (List.mem_cons_self _ _) tmp hH
        cases hV : validateCapabilities D tmp wd.Name wd.Reference with
        | mk tmp1 err1 =>
          rw [hV] at hv
          simp only at hv
          subst hv
          simp only [syncLoop, hH, hV, List.filterMap_cons, syncedCapability, syncError]
          rw [ih _ _ hrest]
          simp [syncedCapability, syncError]

theorem sync_lengths (D : SyncDeps) (syncDir tp word : String)
    (applyTo : ClusterDefinition → List String) (defs : List ClusterDefinition) :
    (defs.filterMap (syncedCapability D syncDir tp applyTo)).length +
      (defs.filterMap (syncError D syncDir tp word applyTo)).length = defs.length := by
  induction defs with
  | nil => rfl
  | cons wd rest ih =>
    cases hH : HandleDefinition D wd.Name syncDir wd.Reference wd.Annotations wd.Extension tp
        (applyTo wd) with
    | mk tmp err =>
      cases err with
      | some e =>
        simp only [List.filterMap_cons, syncedCapability, syncError, hH, List.length_cons]
        simp only [syncedCapability, syncError] at ih
        omega
      | none =>
        simp only [List.filterMap_cons, syncedCapability, syncError, hH, List.length_cons]
        simp only [syncedCapability, syncError] at ih
        omega

theorem validateCapabilities_of_helm (D : SyncDeps) (tmp : Capability)
    (definitionName reference : String) (hhelm : ∀ chart, D.InstallHelmChart chart = none) :
    (validateCapabilities D tmp definitionName reference).2 = none := by
  unfold validateCapabilities
  cases tmp.Install with
  | none => rfl
  | some install => simp only [hhelm]

/-- C22: when the client and the discovery mapper are made, the cluster returns
a list of definitions and no `validateCapabilities` call on it fails,
`GetWorkloadsFromCluster` and `GetTraitsFromCluster` return no fatal error, the
capability of every definition whose `HandleDefinition` succeeds, in list
order, and the wrapped error of every definition whose `HandleDefinition`
fails, in list order; the two lists together have as many entries as there are
definitions. -/
theorem sync_per_item (D : SyncDeps) (namespace_ syncDir selector : String)
    (defs : List ClusterDefinition) (hclient : D.NewClient = none)
    (hmapper : D.NewDiscoveryMapper = none) :
    (D.ListWorkloadDefinitions namespace_ selector = (defs, none) →
      (∀ wd ∈ defs, ∀ tmp,
        HandleDefinition D wd.Name syncDir wd.Reference wd.Annotations wd.Extension
          TypeWorkload [] = (tmp, none) →
        (validateCapabilities D tmp wd.Name wd.Reference).2 = none) →
      GetWorkloadsFromCluster D namespace_ syncDir selector =
        (defs.filterMap (syncedCapability D syncDir TypeWorkload fun _ => []),
          defs.filterMap (syncError D syncDir TypeWorkload "workload" fun _ => []), none) ∧
      (GetWorkloadsFromCluster D namespace_ syncDir selector).1.length +
        (GetWorkloadsFromCluster D namespace_ syncDir selector).2.1.length = defs.length) ∧
    (D.ListTraitDefinitions namespace_ selector = (defs, none) →
      (∀ td ∈ defs, ∀ tmp,
        HandleDefinition D td.Name syncDir td.Reference td.Annotations td.Extension
          TypeTrait td.AppliesToWorkloads = (tmp, none) →
        (validateCapabilities D tmp td.Name td.Reference).2 = none) →
      GetTraitsFromCluster D namespace_ syncDir selector =
        (defs.filterMap (syncedCapability D syncDir TypeTrait fun td => td.AppliesToWorkloads),
          defs.filterMap
            (syncError D syncDir TypeTrait "trait" fun td => td.AppliesToWorkloads), none) ∧
      (GetTraitsFromCluster D namespace_ syncDir selector).1.length +
        (GetTraitsFromCluster D namespace_ syncDir selector).2.1.length = defs.length) := by
  constructor
  · intro hlist hval
    have h : GetWorkloadsFromCluster D namespace_ syncDir selector =
        (defs.filterMap (syncedCapability D syncDir TypeWorkload fun _ => []),
          defs.filterMap (syncError D syncDir TypeWorkload "workload" fun _ => []), none) := by
      simp only [GetWorkloadsFromCluster, hclient, hmapper, hlist]
      rw [syncLoop_eq D syncDir TypeWorkload "workload" (fun _ => []) defs [] [] hval]
      simp
    refine ⟨h, ?_⟩
    rw [h]
    exact sync_lengths D syncDir TypeWorkload "workload" (fun _ => []) defs
  · intro hlist hval
    have h : GetTraitsFromCluster D namespace_ syncDir selector =
        (defs.filterMap (syncedCapability D syncDir TypeTrait fun td => td.AppliesToWorkloads),
          defs.filterMap
            (syncError D syncDir TypeTrait "trait" fun td => td.AppliesToWorkloads),
          none) := by
      simp only [GetTraitsFromCluster, hclient, hmapper, hlist]
      rw [syncLoop_eq D syncDir TypeTrait "trait" (fun td => td.AppliesToWorkloads) defs [] []
        hval]
      simp
    refine ⟨h, ?_⟩
    rw [h]
    exact sync_lengths D syncDir TypeTrait "trait" (fun td => td.AppliesToWorkloads) defs

/-- C22, at a definition with a broken template followed by `webservice`: the
error of the first is collected and the second is returned. -/
theorem sync_per_item_witness :
    (GetWorkloadsFromCluster (sampleSync [brokenDef, webserviceDef]) "vela-system"
        "/tmp/sync" "").1.map (fun cap => cap.Name) = ["webservice"] ∧
    (GetWorkloadsFromCluster (sampleSync [brokenDef, webserviceDef]) "vela-system"
        "/tmp/sync" "").2 =
      (["handle workload template `broken` failed: unexpected end of JSON input"], none) ∧
    (GetWorkloadsFromCluster (sampleSync [brokenDef, webserviceDef]) "vela-system"
        "/tmp/sync" "").1.length +
      (GetWorkloadsFromCluster (sampleSync [brokenDef, webserviceDef]) "vela-system"
        "/tmp/sync" "").2.1.length = 2 :=
  have h := (sync_per_item (sampleSync [brokenDef, webserviceDef]) "vela-system"
    "/tmp/sync" "" [brokenDef, webserviceDef] rfl rfl).1 rfl
    (fun wd _ tmp _ => validateCapabilities_of_helm _ tmp wd.Name wd.Reference (fun _ => rfl))
  ⟨by rw [h.1]; decide, by rw [h.1]; decide, h.2⟩

/-! ## Route defaults -/

theorem trimDomain_eq (env : EnvMeta) (pre : String) :
    (if HasPrefix env.Domain pre = true then
      ({ env with Domain := TrimPrefix env.Domain pre } : EnvMeta)
    else env) = { env with Domain := TrimPrefix env.Domain pre } := by
  by_cases h : HasPrefix env.Domain pre = true
  · simp only [h, if_true]
  · simp only [h, if_false, TrimPrefix, Bool.false_eq_true]

/-- C23: for the trait type `route`, with an empty domain flag the call fails
with the `--domain is required` error when `env.Domain` is empty, and otherwise
sets the domain flag to the workload name, a dot and `env.Domain` without a
leading `https://` and then without a leading `http://` (an error of the set is
returned); a non-empty domain flag is not set; then an empty issuer flag is set
to `env.Issuer` when that is not empty, and left as it is otherwise; for any
other trait type the call returns no error and the flags and the environment
as they were. -/
theorem ValidateAndMutateForCore_route {F : Type} (lib : CliLib F) (workloadName : String)
    (flags : F) (env : EnvMeta) :
    ((lib.GetString flags "domain").1 = "" → env.Domain = "" →
      ValidateAndMutateForCore lib "route" workloadName flags env =
        (flags, env, some "--domain is required if not contain in environment")) ∧
    ((lib.GetString flags "domain").1 = "" → env.Domain ≠ "" →
      ValidateAndMutateForCore lib "route" workloadName flags env =
        match lib.Set flags "domain" (workloadName ++ "." ++
            TrimPrefix (TrimPrefix env.Domain "https://") "http://") with
        | (flags1, some e) =>
          (flags1,
            { env with Domain := TrimPrefix (TrimPrefix env.Domain "https://") "http://" },
            some ("set flag for vela-core trait('route') err " ++ e ++
              ", please make sure your template is right"))
        | (flags1, none) =>
          routeIssuer lib flags1
            { env with Domain := TrimPrefix (TrimPrefix env.Domain "https://") "http://" }) ∧
    ((lib.GetString flags "domain").1 ≠ "" →
      ValidateAndMutateForCore lib "route" workloadName flags env =
        routeIssuer lib flags env) ∧
    (∀ (flags1 : F) (env1 : EnvMeta),
      (lib.GetString flags1 "issuer").1 = "" → env1.Issuer ≠ "" →
      routeIssuer lib flags1 env1 =
        match lib.Set flags1 "issuer" env1.Issuer with
        | (flags2, some e) =>
          (flags2, env1, some ("set flag for vela-core trait('route') err " ++ e ++
            ", please make sure your template is right"))
        | (flags2, none) => (flags2, env1, none)) ∧
    (∀ (flags1 : F) (env1 : EnvMeta),
      ((lib.GetString flags1 "issuer").1 ≠ "" ∨ env1.Issuer = "") →
      routeIssuer lib flags1 env1 = (flags1, env1, none)) ∧
    (∀ traitType, traitType ≠ "route" →
      ValidateAndMutateForCore lib traitType workloadName flags env = (flags, env, none)) := by
  refine ⟨?_, ?_, ?_, ?_, ?_, ?_⟩
  · intro hd he
    simp only [ValidateAndMutateForCore, routeDomain, hd, he, if_true]
  · intro hd he
    have h1 := trimDomain_eq env "https://"
    have h2 := trimDomain_eq { env with Domain := TrimPrefix env.Domain "https://" } "http://"
    simp only at h2
    simp only [ValidateAndMutateForCore, routeDomain, hd, he, if_true, if_false, h1, h2]
    cases lib.Set flags "domain" (workloadName ++ "." ++
        TrimPrefix (TrimPrefix env.Domain "https://") "http://") with
    | mk flags1 err => cases err <;> rfl
  · intro hd
    simp only [ValidateAndMutateForCore, routeDomain, hd, if_true, if_false]
  · intro flags1 env1 hi he
    simp only [routeIssuer, hi, he, ne_eq, not_false_eq_true, and_self, if_true]
  · intro flags1 env1 h
    have hnot : ¬ ((lib.GetString flags1 "issuer").1 = "" ∧ env1.Issuer ≠ "") := by
      rintro ⟨h1, h2⟩
      rcases h with h | h
      · exact h h1
      · exact h2 h
    simp only [routeIssuer, hnot, if_false]
  · intro traitType ht
    simp only [ValidateAndMutateForCore, ht, if_false]

/-- C23, at the environment `prod` and a route on `web` with empty domain and
issuer flags. -/
theorem ValidateAndMutateForCore_route_witness :
    ValidateAndMutateForCore stringFlags "route" "web" [("domain", ""), ("issuer", "")]
        prodEnv =
      ([("domain", "web.example.com"), ("issuer", "letsencrypt")],
        { prodEnv with Domain := "example.com" }, none) ∧
    ValidateAndMutateForCore stringFlags "scaler" "web" [("domain", ""), ("issuer", "")]
        prodEnv = ([("domain", ""), ("issuer", "")], prodEnv, none) :=
  ⟨((ValidateAndMutateForCore_route stringFlags "web" [("domain", ""), ("issuer", "")]
      prodEnv).2.1 rfl (by decide)).trans (by decide),
   (ValidateAndMutateForCore_route stringFlags "web" [("domain", ""), ("issuer", "")]
      prodEnv).2.2.2.2.2 "scaler" (by decide)⟩

end KubeVela
